import Mathlib

/-!
Verification development for a single-document understanding pipeline
(financial-doc processing service, main module).

The development shallowly embeds the pipeline logic of the source module:

* the JSON recovery layer (a model of the stdlib strict JSON codec together
  with the two-tier narration-tolerant wrapper around it),
* the direct-read text extraction path (UTF-8 decoding heuristics),
* the agent-response normalizer over a small universe of Python values,
* the asynchronous OCR (Textract) polling and pagination loop,
* the supervisor state machine over the workflow record, and the entrypoint.

Machine integers do not occur; Python strings are modelled as Lean strings,
byte strings as lists of naturals below 256.  JSON numbers are modelled as
integers: float-valued leaves are IEEE-754 values and are outside the
shallow embedding (the parser model reports an error on a float literal,
which no verified claim exercises).  Positions inside stdlib parse-error
messages are elided; the message kinds are kept.
-/

/-! ## Character and list utilities -/

/-- Left brace character, written via its code point. -/
def lbrace : Char := Char.ofNat 123

/-- Right brace character, written via its code point. -/
def rbrace : Char := Char.ofNat 125

/-- Decimal digit character for a value below ten. -/
def digitChar (k : Nat) : Char := Char.ofNat (48 + k)

/-- Lower-case hexadecimal digit character for a value below sixteen. -/
def hexDigit (k : Nat) : Char :=
  if k < 10 then Char.ofNat (48 + k) else Char.ofNat (87 + k)

/-- Hexadecimal digit value of a character, if it is one. -/
def parseHexDigit (c : Char) : Option Nat :=
  if 48 ≤ c.toNat ∧ c.toNat ≤ 57 then some (c.toNat - 48)
  else if 97 ≤ c.toNat ∧ c.toNat ≤ 102 then some (c.toNat - 87)
  else if 65 ≤ c.toNat ∧ c.toNat ≤ 70 then some (c.toNat - 55)
  else none

/-- List-level prefix test on characters. -/
def startsWithL : List Char → List Char → Bool
  | _, [] => true
  | [], _ :: _ => false
  | c :: l, p :: ps => c = p && startsWithL l ps

/-- List-level substring test: some suffix of the text starts with the pattern. -/
def containsSubL (l pat : List Char) : Bool :=
  if startsWithL l pat then true
  else
    match l with
    | [] => false
    | _ :: rest => containsSubL rest pat

/-- Substring test on strings (the Python `in` operator on str). -/
def containsSubstr (s pat : String) : Bool := containsSubL s.data pat.data

/-- ASCII lower-casing of one character (Python str.lower restricted to ASCII). -/
def lowerChar (c : Char) : Char :=
  if 65 ≤ c.toNat ∧ c.toNat ≤ 90 then Char.ofNat (c.toNat + 32) else c

/-- ASCII lower-casing of a string. -/
def strLower (s : String) : String := String.mk (s.data.map lowerChar)

/-- List-level suffix test. -/
def endsWithL (l pat : List Char) : Bool := startsWithL l.reverse pat.reverse

/-- Suffix test on strings (Python str.endswith). -/
def strEndsWith (s pat : String) : Bool := endsWithL s.data pat.data

/-- Prefix test on strings (Python str.startswith). -/
def strStartsWith (s pat : String) : Bool := startsWithL s.data pat.data

/-- Python whitespace characters relevant to str.strip. -/
def isPySpace (c : Char) : Bool :=
  c = ' ' || c = '\t' || c = '\n' || c = '\r' || c.toNat = 11 || c.toNat = 12

/-- Python str.strip: drop whitespace from both ends. -/
def pyStrip (s : String) : String :=
  String.mk (((s.data.dropWhile isPySpace).reverse.dropWhile isPySpace).reverse)

/-- Python repr of a string, abbreviated: the text between single quotes
(escape refinement elided; no verified claim depends on it). -/
def pyReprStr (s : String) : String := "\x27" ++ s ++ "\x27"

/-- Python str.find: index of the first occurrence of a character, -1 if absent. -/
def pyFindAux (l : List Char) (c : Char) (i : Nat) : Int :=
  match l with
  | [] => -1
  | x :: rest => if x = c then (i : Int) else pyFindAux rest c (i + 1)

/-- Python str.find from index zero. -/
def pyFind (l : List Char) (c : Char) : Int := pyFindAux l c 0

/-- Python str.rfind: index of the last occurrence of a character, -1 if absent. -/
def pyRFind (l : List Char) (c : Char) : Int :=
  match pyFind l.reverse c with
  | -1 => -1
  | i => (l.length : Int) - 1 - i

/-- Python slice text[start:stop] for the non-negative indices the code produces. -/
def pySlice (l : List Char) (start stop : Int) : List Char :=
  (l.take stop.toNat).drop start.toNat

/-- Basename of an S3 key: the part after the last slash (key.split("/")[-1]). -/
def keyBasename (key : String) : String :=
  String.mk ((key.data.reverse.takeWhile (fun c => c ≠ '/')).reverse)

/-! ## JSON values

Model of the JSON data the stdlib json module moves in and out of text.
Numbers are integers (see the module comment); objects are association
lists in insertion order, matching the insertion-ordered Python dict. -/

inductive JVal where
  | null
  | bool (b : Bool)
  | num (n : Int)
  | str (s : String)
  | arr (elems : List JVal)
  | obj (fields : List (String × JVal))
deriving Repr

/-- Python dict insertion: overwrite in place if present, else append. -/
def dictInsert (acc : List (String × JVal)) (k : String) (v : JVal) :
    List (String × JVal) :=
  match acc with
  | [] => [(k, v)]
  | (k0, v0) :: rest =>
    if k0 = k then (k0, v) :: rest else (k0, v0) :: dictInsert rest k v

/-! ## Serialization: model of json.dumps (default separators) -/

/-- Decimal digits of a natural number, most significant first; structural
on a fuel bound which the wrapper instantiates sufficiently. -/
def natCharsAux : Nat → Nat → List Char
  | 0, _ => []
  | fuel + 1, n =>
    if n < 10 then [digitChar n]
    else natCharsAux fuel (n / 10) ++ [digitChar (n % 10)]

/-- Decimal digits of a natural number, most significant first. -/
def natChars (n : Nat) : List Char := natCharsAux (n + 1) n

/-- Decimal rendering of an integer (Python str on int). -/
def intChars (n : Int) : List Char :=
  if n < 0 then '-' :: natChars n.natAbs else natChars n.natAbs

/-- JSON string escaping of one character, following the stdlib encoder
with ensure_ascii off: two-character escapes for the common controls plus
quote and backslash, a unicode escape for the remaining controls, and the
raw character otherwise.  (The default ASCII-escaping variant differs only
on characters above 127 and round-trips identically.) -/
def escapeChar (c : Char) : List Char :=
  if c = '"' then ['\\', '"']
  else if c = '\\' then ['\\', '\\']
  else if c = '\n' then ['\\', 'n']
  else if c = '\r' then ['\\', 'r']
  else if c = '\t' then ['\\', 't']
  else if c.toNat = 8 then ['\\', 'b']
  else if c.toNat = 12 then ['\\', 'f']
  else if c.toNat < 32 then
    ['\\', 'u', '0', '0', hexDigit (c.toNat / 16), hexDigit (c.toNat % 16)]
  else [c]

/-- JSON string escaping of a character list. -/
def escapeChars : List Char → List Char
  | [] => []
  | c :: cs => escapeChar c ++ escapeChars cs

mutual

/-- Model of json.dumps with the default separators (comma-space and
colon-space), producing a character list. -/
def jdump : JVal → List Char
  | .null => 'n' :: ['u', 'l', 'l']
  | .bool true => 't' :: ['r', 'u', 'e']
  | .bool false => 'f' :: ['a', 'l', 's', 'e']
  | .num n => intChars n
  | .str s => '"' :: (escapeChars s.data ++ ['"'])
  | .arr [] => ['[', ']']
  | .arr (x :: xs) => '[' :: (jdump x ++ jdumpArrTail xs ++ [']'])
  | .obj [] => [lbrace, rbrace]
  | .obj (f :: fs) => lbrace :: (jdumpField f ++ jdumpObjTail fs ++ [rbrace])

/-- Remaining array elements, each preceded by comma-space. -/
def jdumpArrTail : List JVal → List Char
  | [] => []
  | y :: ys => ',' :: ' ' :: (jdump y ++ jdumpArrTail ys)

/-- One object member: quoted key, colon-space, value. -/
def jdumpField : String × JVal → List Char
  | (k, v) => '"' :: (escapeChars k.data ++ ['"', ':', ' '] ++ jdump v)

/-- Remaining object members, each preceded by comma-space. -/
def jdumpObjTail : List (String × JVal) → List Char
  | [] => []
  | f :: fs => ',' :: ' ' :: (jdumpField f ++ jdumpObjTail fs)

end

/-- Model of json.dumps returning a string. -/
def json_dumps (v : JVal) : String := String.mk (jdump v)

/-! ## Parsing: model of strict json.loads

Fuel-indexed recursive-descent scanner following the stdlib decoder:
a value parser, array and object item loops, a string-body scanner with
the standard escapes (including surrogate pairs), and an integer number
scanner.  Whitespace is the four JSON whitespace characters.  Parse errors
are message strings (positions elided). -/

/-- JSON whitespace skip. -/
def jskipWs : List Char → List Char
  | [] => []
  | c :: rest =>
    if c = ' ' || c = '\t' || c = '\n' || c = '\r' then jskipWs rest
    else c :: rest

/-- One string-body token: given the head character and the remaining text,
return the decoded character (none for the closing quote) and how many
further characters beyond the head were consumed.  Handles the standard
escapes including surrogate pairs; rejects raw control characters as the
strict decoder does.  (A lone surrogate escape denotes no code point
representable here and is reported as an error; the stdlib keeps it as a
lone surrogate inside the str, which no claim exercises.) -/
def strTok (c : Char) (rest : List Char) : Except String (Option Char × Nat) :=
  if c = '"' then .ok (none, 0)
  else if c = '\\' then
    match rest with
    | [] => .error "Unterminated string"
    | e :: rest2 =>
      if e = '"' || e = '\\' || e = '/' then .ok (some e, 1)
      else if e = 'b' then .ok (some (Char.ofNat 8), 1)
      else if e = 'f' then .ok (some (Char.ofNat 12), 1)
      else if e = 'n' then .ok (some '\n', 1)
      else if e = 'r' then .ok (some '\r', 1)
      else if e = 't' then .ok (some '\t', 1)
      else if e = 'u' then
        match rest2 with
        | h1 :: h2 :: h3 :: h4 :: rest3 =>
          match parseHexDigit h1, parseHexDigit h2,
              parseHexDigit h3, parseHexDigit h4 with
          | some a, some b, some c2, some d =>
            let m := ((a * 16 + b) * 16 + c2) * 16 + d
            if 55296 ≤ m ∧ m ≤ 56319 then
              match rest3 with
              | b1 :: u2 :: g1 :: g2 :: g3 :: g4 :: _ =>
                if b1 = '\\' ∧ u2 = 'u' then
                  match parseHexDigit g1, parseHexDigit g2,
                      parseHexDigit g3, parseHexDigit g4 with
                  | some a2, some b2, some c3, some d2 =>
                    let m2 := ((a2 * 16 + b2) * 16 + c3) * 16 + d2
                    if 56320 ≤ m2 ∧ m2 ≤ 57343 then
                      .ok (some (Char.ofNat
                        (65536 + (m - 55296) * 1024 + (m2 - 56320))), 11)
                    else .error "Unpaired surrogate"
                  | _, _, _, _ => .error "Invalid unicode escape"
                else .error "Unpaired surrogate"
              | _ => .error "Unpaired surrogate"
            else if 56320 ≤ m ∧ m ≤ 57343 then .error "Unpaired surrogate"
            else .ok (some (Char.ofNat m), 5)
          | _, _, _, _ => .error "Invalid unicode escape"
        | _ => .error "Invalid unicode escape"
      else .error "Invalid escape"
  else if c.toNat < 32 then .error "Invalid control character"
  else .ok (some c, 0)

/-- String body scanner: input after the opening quote, output the decoded
characters and the text after the closing quote. -/
def parseStringBody : Nat → List Char → Except String (List Char × List Char)
  | 0, _ => .error "Scanner fuel exhausted"
  | _ + 1, [] => .error "Unterminated string"
  | fuel + 1, c :: rest =>
    match strTok c rest with
    | .error e => .error e
    | .ok (none, _) => .ok ([], rest)
    | .ok (some ch, k) =>
      (parseStringBody fuel (rest.drop k)).map (fun p => (ch :: p.1, p.2))

/-- Maximal run of decimal digits at the head of the text. -/
def takeDigits : List Char → List Char × List Char
  | [] => ([], [])
  | c :: rest =>
    if c.isDigit then
      let p := takeDigits rest
      (c :: p.1, p.2)
    else ([], c :: rest)

/-- Value of a digit run. -/
def digitsVal (l : List Char) : Nat :=
  l.foldl (fun a c => a * 10 + (c.toNat - 48)) 0

/-- After an integer literal, a following dot or exponent marker would make
it a float literal, which is outside this model (see the module comment). -/
def checkNoFloat (n : Nat) (r : List Char) : Except String (Nat × List Char) :=
  match r with
  | [] => .ok (n, [])
  | c :: _ =>
    if c = '.' || c = 'e' || c = 'E' then .error "Float literal outside model"
    else .ok (n, r)

/-- Unsigned integer literal: a lone zero, or a nonzero leading digit with a
maximal digit run (the stdlib number grammar). -/
def parseUNumber : List Char → Except String (Nat × List Char)
  | [] => .error "Expecting value"
  | c :: rest =>
    if c = '0' then checkNoFloat 0 rest
    else if c.isDigit then
      let p := takeDigits rest
      checkNoFloat (digitsVal (c :: p.1)) p.2
    else .error "Expecting value"

/-- Integer literal with optional minus sign. -/
def parseNumber (l : List Char) : Except String (JVal × List Char) :=
  match l with
  | [] => .error "Expecting value"
  | c :: rest =>
    if c = '-' then
      (parseUNumber rest).map (fun p => (.num (-(p.1 : Int)), p.2))
    else (parseUNumber l).map (fun p => (.num (p.1 : Int), p.2))

mutual

/-- Value scanner with fuel; the entry point passes fuel exceeding the text
length, which the round-trip development shows is always sufficient for
serialized values.  The object and array scanners after the opening token
are inlined: an immediate closing token yields the empty container, else
the member or item loop runs. -/
def parseValue : Nat → List Char → Except String (JVal × List Char)
  | 0, _ => .error "Scanner fuel exhausted"
  | fuel + 1, l =>
    match jskipWs l with
    | [] => .error "Expecting value"
    | c :: rest =>
      if c = lbrace then
        match jskipWs rest with
        | [] => .error "Expecting property name enclosed in double quotes"
        | c2 :: r2 =>
          if c2 = rbrace then .ok (.obj [], r2)
          else parseMembers fuel (c2 :: r2) []
      else if c = '[' then
        match jskipWs rest with
        | [] => .error "Expecting value"
        | c2 :: r2 =>
          if c2 = ']' then .ok (.arr [], r2)
          else parseItems fuel (c2 :: r2) []
      else if c = '"' then
        (parseStringBody (rest.length + 1) rest).map
          (fun p => (.str (String.mk p.1), p.2))
      else if c = 't' then
        match rest with
        | 'r' :: 'u' :: 'e' :: rt => .ok (.bool true, rt)
        | _ => .error "Expecting value"
      else if c = 'f' then
        match rest with
        | 'a' :: 'l' :: 's' :: 'e' :: rf => .ok (.bool false, rf)
        | _ => .error "Expecting value"
      else if c = 'n' then
        match rest with
        | 'u' :: 'l' :: 'l' :: rn => .ok (.null, rn)
        | _ => .error "Expecting value"
      else if c = '-' || c.isDigit then parseNumber (c :: rest)
      else .error "Expecting value"
termination_by structural fuel => fuel

/-- Object member loop: a quoted key, colon, value, then comma or closing
brace; members accumulate by dict insertion. -/
def parseMembers : Nat → List Char → List (String × JVal) →
    Except String (JVal × List Char)
  | 0, _, _ => .error "Scanner fuel exhausted"
  | fuel + 1, l, acc =>
    match l with
    | [] => .error "Expecting property name enclosed in double quotes"
    | c :: rest =>
      if c = '"' then
        match parseStringBody (rest.length + 1) rest with
        | .error e => .error e
        | .ok (kcs, r1) =>
          match jskipWs r1 with
          | ':' :: r2 =>
            match parseValue fuel r2 with
            | .error e => .error e
            | .ok (v, r3) =>
              let acc2 := dictInsert acc (String.mk kcs) v
              match jskipWs r3 with
              | ',' :: r4 => parseMembers fuel (jskipWs r4) acc2
              | c2 :: r4 =>
                if c2 = rbrace then .ok (.obj acc2, r4)
                else .error "Expecting comma delimiter"
              | [] => .error "Expecting comma delimiter"
          | _ => .error "Expecting colon delimiter"
      else .error "Expecting property name enclosed in double quotes"
termination_by structural fuel _ _ => fuel

/-- Array item loop: a value, then comma or closing bracket. -/
def parseItems : Nat → List Char → List JVal → Except String (JVal × List Char)
  | 0, _, _ => .error "Scanner fuel exhausted"
  | fuel + 1, l, acc =>
    match parseValue fuel l with
    | .error e => .error e
    | .ok (v, r1) =>
      match jskipWs r1 with
      | ',' :: r2 => parseItems fuel r2 (acc ++ [v])
      | c2 :: r2 =>
        if c2 = ']' then .ok (.arr (acc ++ [v]), r2)
        else .error "Expecting comma delimiter"
      | [] => .error "Expecting comma delimiter"
termination_by structural fuel _ _ => fuel

end

/-- Model of strict json.loads: scan one value and require only whitespace
after it, as the stdlib does. -/
def json_loads (s : String) : Except String JVal :=
  match parseValue (s.data.length + 2) s.data with
  | .error e => .error e
  | .ok (v, rest) =>
    match jskipWs rest with
    | [] => .ok v
    | _ :: _ => .error "Extra data"

/-! ## Two-tier JSON recovery (the source function _parse_json_from_text)

The source function logs through the application logger and raises on
failure; the model returns the list of emitted log messages next to the
outcome, with the error channel holding the raised exception message. -/

/-- Warning message logged before the inner-braces attempt. -/
def nonPureJsonWarning (context e : String) : String :=
  context ++ ": non-pure JSON, attempting inner braces only: " ++ e

/-- Error message logged when no inner-braces attempt is possible. -/
def invalidJsonError (context e rawText : String) : String :=
  context ++ ": invalid JSON after extraction: " ++ e
    ++ " | text=" ++ pyReprStr rawText

/-- Model of the source function _parse_json_from_text: strict parse first;
on failure, narrow to the span from the first opening brace to the last
closing brace and parse that; otherwise log and re-raise the original
error.  The first component collects the logger output in emission order. -/
def parse_json_from_text (rawText context : String) :
    List String × Except String JVal :=
  match json_loads rawText with
  | .ok v => ([], .ok v)
  | .error e =>
    let start := pyFind rawText.data lbrace
    let stop := pyRFind rawText.data rbrace + 1
    if start ≠ -1 ∧ stop > start then
      let inner := String.mk (pySlice rawText.data start stop)
      ([nonPureJsonWarning context e], json_loads inner)
    else
      ([invalidJsonError context e rawText], .error e)

/-! ## UTF-8 decoding and the direct-read extraction path -/

/-- Continuation byte test. -/
def isCont (b : Nat) : Bool := 128 ≤ b && b ≤ 191

/-- Second-byte constraint for a three-byte lead, rejecting overlong forms
and surrogate code points as the strict codec does. -/
def cont3Ok (b c1 : Nat) : Bool :=
  if b = 224 then 160 ≤ c1 && c1 ≤ 191
  else if b = 237 then 128 ≤ c1 && c1 ≤ 159
  else isCont c1

/-- Second-byte constraint for a four-byte lead, rejecting overlong forms
and code points beyond the unicode range. -/
def cont4Ok (b c1 : Nat) : Bool :=
  if b = 240 then 144 ≤ c1 && c1 ≤ 191
  else if b = 244 then 128 ≤ c1 && c1 ≤ 143
  else isCont c1

/-- Decode one UTF-8 sequence: given the lead byte and the remaining bytes,
return the code point and how many continuation bytes were consumed; none on
any invalid sequence.  Overlong forms, surrogates and out-of-range leads are
rejected as the strict codec rejects them. -/
def utf8DecodeOne (b : Nat) (rest : List Nat) : Option (Char × Nat) :=
  if b < 128 then some (Char.ofNat b, 0)
  else if 194 ≤ b && b ≤ 223 then
    match rest with
    | c1 :: _ =>
      if isCont c1 then some (Char.ofNat ((b - 192) * 64 + (c1 - 128)), 1)
      else none
    | [] => none
  else if 224 ≤ b && b ≤ 239 then
    match rest with
    | c1 :: c2 :: _ =>
      if cont3Ok b c1 && isCont c2 then
        some (Char.ofNat ((b - 224) * 4096 + (c1 - 128) * 64 + (c2 - 128)), 2)
      else none
    | _ => none
  else if 240 ≤ b && b ≤ 244 then
    match rest with
    | c1 :: c2 :: c3 :: _ =>
      if cont4Ok b c1 && isCont c2 && isCont c3 then
        some (Char.ofNat ((b - 240) * 262144 + (c1 - 128) * 4096
          + (c2 - 128) * 64 + (c3 - 128)), 3)
      else none
    | _ => none
  else none

/-- Strict UTF-8 decoding of a byte list; none on any invalid sequence
(the UnicodeDecodeError case of bytes.decode with utf-8). -/
def decodeUtf8 : Nat → List Nat → Option (List Char)
  | 0, _ => none
  | _ + 1, [] => some []
  | fuel + 1, b :: rest =>
    match utf8DecodeOne b rest with
    | some (c, k) => (decodeUtf8 fuel (rest.drop k)).map (fun cs => c :: cs)
    | none => none

/-- Permissive UTF-8 decoding (bytes.decode with errors ignored): invalid
bytes are dropped and decoding continues.  The stdlib drops a maximal
invalid subpart at once; this model drops byte by byte, which no verified
claim distinguishes. -/
def decodeUtf8Ignore : Nat → List Nat → List Char
  | 0, _ => []
  | _ + 1, [] => []
  | fuel + 1, b :: rest =>
    match utf8DecodeOne b rest with
    | some (c, k) => c :: decodeUtf8Ignore fuel (rest.drop k)
    | none => decodeUtf8Ignore fuel rest

/-- Strict UTF-8 decoding of a whole byte string; one fuel unit per byte
plus one always suffices since every step consumes at least one byte. -/
def pyDecodeUtf8Strict (body : List Nat) : Option (List Char) :=
  decodeUtf8 (body.length + 1) body

/-- Permissive UTF-8 decoding of a whole byte string. -/
def pyDecodeUtf8Ignore (body : List Nat) : List Char :=
  decodeUtf8Ignore (body.length + 1) body

/-- Latin-1 decoding never fails: every byte is a code point. -/
def latin1Decode (body : List Nat) : List Char := body.map Char.ofNat

/-- Model of mimetypes.guess_type restricted to the extensions this
pipeline encounters; unknown extensions yield none as the stdlib does. -/
def guessType (key : String) : Option String :=
  let k := strLower key
  if strEndsWith k ".txt" then some "text/plain"
  else if strEndsWith k ".html" || strEndsWith k ".htm" then some "text/html"
  else if strEndsWith k ".json" then some "application/json"
  else if strEndsWith k ".csv" then some "text/csv"
  else if strEndsWith k ".xml" then some "text/xml"
  else if strEndsWith k ".pdf" then some "application/pdf"
  else if strEndsWith k ".png" then some "image/png"
  else if strEndsWith k ".jpg" || strEndsWith k ".jpeg" then some "image/jpeg"
  else if strEndsWith k ".tif" || strEndsWith k ".tiff" then some "image/tiff"
  else none

/-- Python or-chain over the content-type header, the filename guess and the
octet-stream default, with falsy (absent or empty) values skipped. -/
def effectiveContentType (key : String) (contentTypeHeader : Option String) :
    String :=
  match contentTypeHeader with
  | some s => if s ≠ "" then s else (guessType key).getD "application/octet-stream"
  | none => (guessType key).getD "application/octet-stream"

/-- Model of the source function read_s3_object_as_text on a fetched body:
textual content types (or html-suffixed keys) decode as UTF-8 with a
latin-1 fallback; json-suffixed keys decode as strict UTF-8 with no
fallback (an invalid body raises); anything else decodes permissively.
The error channel is the raised UnicodeDecodeError. -/
def read_s3_object_as_text (key : String) (contentTypeHeader : Option String)
    (body : List Nat) : Except String String :=
  let contentType := effectiveContentType key contentTypeHeader
  let k := strLower key
  if strStartsWith contentType "text/" || strEndsWith k ".html"
      || strEndsWith k ".htm" then
    match pyDecodeUtf8Strict body with
    | some cs => .ok (String.mk cs)
    | none => .ok (String.mk (latin1Decode body))
  else if strEndsWith k ".json" then
    match pyDecodeUtf8Strict body with
    | some cs => .ok (String.mk cs)
    | none => .error ("UnicodeDecodeError: invalid utf-8 in " ++ key)
  else .ok (String.mk (pyDecodeUtf8Ignore body))

/-! ## Python values and the agent-response normalizer

Universe of values an agent call may return: mappings, attribute-bearing
objects, strings, numbers, booleans, None and sequences.  Subscripting and
attribute access are fallible primitives (KeyError, AttributeError, or a
TypeError on a non-mapping), so the normalizer model exposes exactly the
exceptions the source could raise. -/

inductive PyValue where
  | pyNone
  | pyBool (b : Bool)
  | pyInt (n : Int)
  | pyStr (s : String)
  | pyList (xs : List PyValue)
  | pyDict (entries : List (String × PyValue))
  | pyObj (attrs : List (String × PyValue))
deriving Repr

/-- Mapping get with default None: total, as dict.get is. -/
def pyDictGet (entries : List (String × PyValue)) (k : String) :
    Option PyValue :=
  match entries with
  | [] => none
  | (k0, v) :: rest => if k0 = k then some v else pyDictGet rest k

/-- Membership test on a mapping (the in operator). -/
def pyContainsKey (entries : List (String × PyValue)) (k : String) : Bool :=
  match entries with
  | [] => false
  | (k0, _) :: rest => k0 = k || pyContainsKey rest k

/-- Subscript operator value[k]: KeyError when absent, TypeError when the
value is not a mapping. -/
def pySubscript (v : PyValue) (k : String) : Except String PyValue :=
  match v with
  | .pyDict entries =>
    match pyDictGet entries k with
    | some w => .ok w
    | none => .error ("KeyError: " ++ k)
  | _ => .error "TypeError: value is not subscriptable"

/-- Attribute test: only the attribute-bearing object shape carries
attributes in this universe. -/
def pyHasattr (v : PyValue) (k : String) : Bool :=
  match v with
  | .pyObj attrs => pyContainsKey (attrs) k
  | _ => false

/-- Attribute access: AttributeError when absent. -/
def pyGetattr (v : PyValue) (k : String) : Except String PyValue :=
  match v with
  | .pyObj attrs =>
    match pyDictGet attrs k with
    | some w => .ok w
    | none => .error ("AttributeError: " ++ k)
  | _ => .error ("AttributeError: " ++ k)

mutual

/-- Python repr of a value (nested rendering used by str on containers). -/
def pyReprOf : PyValue → String
  | .pyNone => "None"
  | .pyBool true => "True"
  | .pyBool false => "False"
  | .pyInt n => String.mk (intChars n)
  | .pyStr s => pyReprStr s
  | .pyList xs => "[" ++ pyReprList xs ++ "]"
  | .pyDict entries =>
    String.mk [lbrace] ++ pyReprEntries entries ++ String.mk [rbrace]
  | .pyObj attrs =>
    "<object " ++ String.mk [lbrace] ++ pyReprEntries attrs
      ++ String.mk [rbrace] ++ ">"

/-- Comma-separated reprs of sequence elements. -/
def pyReprList : List PyValue → String
  | [] => ""
  | [x] => pyReprOf x
  | x :: y :: rest => pyReprOf x ++ ", " ++ pyReprList (y :: rest)

/-- Comma-separated reprs of mapping entries. -/
def pyReprEntries : List (String × PyValue) → String
  | [] => ""
  | [(k, v)] => pyReprStr k ++ ": " ++ pyReprOf v
  | (k, v) :: e :: rest =>
    pyReprStr k ++ ": " ++ pyReprOf v ++ ", " ++ pyReprEntries (e :: rest)

end

/-- Python str of a value: a string renders as itself, anything else via
repr-style rendering.  Total: the last-resort branch of the normalizer. -/
def pyStrOf : PyValue → String
  | .pyStr s => s
  | v => pyReprOf v

/-- Late probes of the normalizer: the message attribute when a string,
then the text attribute when a string, then the generic rendering. -/
def extractTextMsgText (resp : PyValue) : Except String PyValue :=
  if pyHasattr resp "message" then
    match pyGetattr resp "message" with
    | .error e => .error e
    | .ok m =>
      match m with
      | .pyStr s => .ok (.pyStr s)
      | _ =>
        if pyHasattr resp "text" then
          match pyGetattr resp "text" with
          | .error e => .error e
          | .ok t =>
            match t with
            | .pyStr s => .ok (.pyStr s)
            | _ => .ok (.pyStr (pyStrOf resp))
        else .ok (.pyStr (pyStrOf resp))
  else if pyHasattr resp "text" then
    match pyGetattr resp "text" with
    | .error e => .error e
    | .ok t =>
      match t with
      | .pyStr s => .ok (.pyStr s)
      | _ => .ok (.pyStr (pyStrOf resp))
  else .ok (.pyStr (pyStrOf resp))

/-- Tail of the normalizer: the object-attribute content probe, then the
late probes. -/
def extractTextAttrPart (resp : PyValue) : Except String PyValue :=
  if pyHasattr resp "content" then
    match pyGetattr resp "content" with
    | .error e => .error e
    | .ok blocks =>
      match blocks with
      | .pyList (first :: _) =>
        if pyHasattr first "text" then pyGetattr first "text"
        else extractTextMsgText resp
      | _ => extractTextMsgText resp
  else extractTextMsgText resp

/-- Middle of the normalizer: the top-level text, message and output keys of
a mapping, each taken only when present with a string value. -/
def extractTextDictKeys (resp : PyValue) (entries : List (String × PyValue)) :
    Except String PyValue :=
  match pyDictGet entries "text" with
  | some (.pyStr _) => pySubscript resp "text"
  | _ =>
    match pyDictGet entries "message" with
    | some (.pyStr _) => pySubscript resp "message"
    | _ =>
      match pyDictGet entries "output" with
      | some (.pyStr _) => pySubscript resp "output"
      | _ => extractTextAttrPart resp

/-- Model of the source function _extract_text_from_agent_response: the
mapping shape with a content block list, the common top-level mapping keys,
the attribute-bearing shapes, then the generic rendering. -/
def extract_text_from_agent_response (resp : PyValue) : Except String PyValue :=
  match resp with
  | .pyDict entries =>
    match pyDictGet entries "content" with
    | some (.pyList (first :: _)) =>
      match first with
      | .pyDict fentries =>
        if pyContainsKey fentries "text" then pySubscript first "text"
        else extractTextDictKeys resp entries
      | _ => extractTextDictKeys resp entries
    | _ => extractTextDictKeys resp entries
  | _ => extractTextAttrPart resp

/-! ## Textract collaborator model and the OCR extraction path -/

/-- The fields of a Textract block the source reads. -/
structure TBlock where
  blockType : Option String
  text : Option String

/-- The fields of a Textract response the source reads. -/
structure TResp where
  jobStatus : String
  blocks : List TBlock
  nextToken : Option String

/-- Stub of the Textract client: the job id returned by the async start
call, the response of the i-th status poll, the response for a pagination
token, and the response of the synchronous detection call. -/
structure TextractClient where
  jobId : String
  poll : Nat → TResp
  page : String → TResp
  detect : TResp

/-- Terminal job states. -/
def terminalStatus (s : String) : Bool :=
  s = "SUCCEEDED" || s = "FAILED" || s = "PARTIAL_SUCCESS"

/-- The LINE texts of one response, in emitted order, keeping only blocks
whose type is LINE and whose text is present and non-empty (the source
checks the text truthily). -/
def lineTexts (r : TResp) : List String :=
  r.blocks.foldr
    (fun b acc =>
      if b.blockType = some "LINE" then
        match b.text with
        | some t => if t = "" then acc else t :: acc
        | none => acc
      else acc) []

/-- Status-poll loop: poll until a terminal status, sleeping one second
between non-terminal polls.  Returns the terminal response, the number of
polls made, and the sleep log (one entry of one second per sleep); none
when the fuel runs out, modelling the unbounded source loop never reaching
a terminal status. -/
def pollUntilTerminal : Nat → (Nat → TResp) → Nat → Option (TResp × Nat × List Nat)
  | 0, _, _ => none
  | fuel + 1, pollF, i =>
    let r := pollF i
    if terminalStatus r.jobStatus then some (r, i + 1, List.replicate i 1)
    else pollUntilTerminal fuel pollF (i + 1)

/-- Pagination loop: collect the LINE texts of the current response and
follow the continuation token while present and truthy. -/
def collectPages : Nat → (String → TResp) → TResp → Option (List String)
  | 0, _, _ => none
  | fuel + 1, pageF, r =>
    let ls := lineTexts r
    match r.nextToken with
    | none => some ls
    | some tok =>
      if tok = "" then some ls
      else (collectPages fuel pageF (pageF tok)).map (fun more => ls ++ more)

/-- Extension-based routing rule of the source (should_use_textract):
the fixed set of OCR-eligible extensions. -/
def should_use_textract (key : String) : Bool :=
  let k := strLower key
  strEndsWith k ".pdf" || strEndsWith k ".tif" || strEndsWith k ".tiff"
    || strEndsWith k ".png" || strEndsWith k ".jpg" || strEndsWith k ".jpeg"

/-- Model of the source function run_textract_sync: the asynchronous job
path for pdf keys (start, poll to terminal, fail on a non-success terminal
status naming the job and status, then paginate and join LINE texts), and
the synchronous detection path otherwise.  Returns the outcome together
with the poll count and the sleep log; none models non-termination of the
unbounded loops. -/
def run_textract_sync (fuel : Nat) (tc : TextractClient) (key : String) :
    Option (Except String String × Nat × List Nat) :=
  if strEndsWith (strLower key) ".pdf" then
    match pollUntilTerminal fuel tc.poll 0 with
    | none => none
    | some (r, polls, sleeps) =>
      if r.jobStatus ≠ "SUCCEEDED" then
        some (.error ("Textract job " ++ tc.jobId
          ++ " did not succeed, status: " ++ r.jobStatus), polls, sleeps)
      else
        match collectPages fuel tc.page r with
        | none => none
        | some ls =>
          some (.ok (pyStrip (String.intercalate "\n" ls)), polls, sleeps)
  else
    some (.ok (pyStrip (String.intercalate "\n" (lineTexts tc.detect))), 0, [])

/-- Model of the source function ensure_text_ingested: route by extension
to the OCR path or the direct-read path, and pair the text with the derived
location it is persisted under.  The persisting put call has no observable
effect on the record and is elided. -/
def ensure_text_ingested (fuel : Nat) (tc : TextractClient)
    (contentTypeHeader : Option String) (body : List Nat)
    (bucket key : String) : Option (Except String (String × String)) :=
  let outKey := "textract-output/" ++ keyBasename key ++ ".txt"
  let uri := "s3://" ++ bucket ++ "/" ++ outKey
  if should_use_textract key then
    (run_textract_sync fuel tc key).map
      (fun x => x.1.map (fun t => (t, uri)))
  else
    some ((read_s3_object_as_text key contentTypeHeader body).map
      (fun t => (t, uri)))

/-! ## Workflow record, supervisor and entrypoint -/

/-- The workflow record (the source dataclass WorkflowState). -/
structure WorkflowState where
  bucket : String
  key : String
  text_s3_uri : Option String
  text : Option String
  classification : Option JVal
  processing_result : Option JVal

/-- Python truthiness of an optional string field: present and non-empty. -/
def optStrTruthy : Option String → Bool
  | none => false
  | some s => s ≠ ""

/-- Python truthiness of a JSON value (the parsed agent outputs are
dictionaries, whose truthiness is non-emptiness). -/
def jvalTruthy : JVal → Bool
  | .null => false
  | .bool b => b
  | .num n => n ≠ 0
  | .str s => s ≠ ""
  | .arr xs => !xs.isEmpty
  | .obj fs => !fs.isEmpty

/-- Python truthiness of an optional JSON field. -/
def optJValTruthy : Option JVal → Bool
  | none => false
  | some v => jvalTruthy v

/-- The three pipeline stages, for invocation traces. -/
inductive Stage where
  | ingest
  | classify
  | process
deriving DecidableEq, Repr

/-- First supervisor step: ingest when the text field is falsy. -/
def supStep1 (st : WorkflowState)
    (ingestF : Unit → Except String (String × String)) :
    List (Stage × WorkflowState) × Except String WorkflowState :=
  if optStrTruthy st.text then ([], .ok st)
  else
    match ingestF () with
    | .error e => ([(.ingest, st)], .error e)
    | .ok (t, uri) =>
      ([(.ingest, st)],
        .ok { st with text := some t, text_s3_uri := some uri })

/-- Second supervisor step: classify when the classification field is
falsy, on the text field of the record. -/
def supStep2 (st : WorkflowState)
    (classifyF : String → Except String JVal) :
    List (Stage × WorkflowState) × Except String WorkflowState :=
  if optJValTruthy st.classification then ([], .ok st)
  else
    match classifyF (st.text.getD "") with
    | .error e => ([(.classify, st)], .error e)
    | .ok c => ([(.classify, st)], .ok { st with classification := some c })

/-- Third supervisor step: run structured processing when the processing
result field is falsy, on the text and classification of the record. -/
def supStep3 (st : WorkflowState)
    (processF : String → JVal → Except String JVal) :
    List (Stage × WorkflowState) × Except String WorkflowState :=
  if optJValTruthy st.processing_result then ([], .ok st)
  else
    match processF (st.text.getD "") (st.classification.getD (.obj [])) with
    | .error e => ([(.process, st)], .error e)
    | .ok r => ([(.process, st)], .ok { st with processing_result := some r })

/-- Model of the source supervisor: the three guarded steps in order, with
an exception aborting the remainder.  The first component records which
stages were invoked and the record each saw at its invocation. -/
def supervisor (st : WorkflowState)
    (ingestF : Unit → Except String (String × String))
    (classifyF : String → Except String JVal)
    (processF : String → JVal → Except String JVal) :
    List (Stage × WorkflowState) × Except String WorkflowState :=
  match supStep1 st ingestF with
  | (tr1, .error e) => (tr1, .error e)
  | (tr1, .ok s1) =>
    match supStep2 s1 classifyF with
    | (tr2, .error e) => (tr1 ++ tr2, .error e)
    | (tr2, .ok s2) =>
      match supStep3 s2 processF with
      | (tr3, r) => (tr1 ++ tr2 ++ tr3, r)

/-- The compact result record the entrypoint returns. -/
structure ResultRecord where
  bucket : String
  key : String
  text_s3_uri : Option String
  classification : Option JVal
  processing_result : Option JVal
deriving Repr

/-- Model of the entrypoint invoke: validate the payload coordinates, run
the supervisor on a fresh record, build the result record, attempt the
HTML report write with any exception swallowed (logged only), and return
the result.  The report-write outcome is an oracle argument. -/
def invoke (bucket key : Option String)
    (ingestF : Unit → Except String (String × String))
    (classifyF : String → Except String JVal)
    (processF : String → JVal → Except String JVal)
    (writeHtmlReport : Except String Unit) : Except String ResultRecord :=
  if !optStrTruthy bucket || !optStrTruthy key then
    .error "ValueError: payload must contain bucket and key"
  else
    let b := bucket.getD ""
    let k := key.getD ""
    let fresh : WorkflowState := ⟨b, k, none, none, none, none⟩
    match supervisor fresh ingestF classifyF processF with
    | (_, .error e) => .error e
    | (_, .ok finalState) =>
      let result : ResultRecord :=
        ⟨finalState.bucket, finalState.key, finalState.text_s3_uri,
          finalState.classification, finalState.processing_result⟩
      match writeHtmlReport with
      | .ok _ => .ok result
      | .error _ => .ok result

/-! ## Auxiliary measures and predicates used by the verification -/

/-- Pairwise distinctness of object keys. -/
def jwfKeysNodup : List String → Bool
  | [] => true
  | k :: rest => !(rest.contains k) && jwfKeysNodup rest

mutual

/-- A JSON value representable as a Python object: every object node has
pairwise distinct keys (a Python dict cannot hold duplicates). -/
def jwf : JVal → Bool
  | .null => true
  | .bool _ => true
  | .num _ => true
  | .str _ => true
  | .arr xs => jwfList xs
  | .obj fs => jwfKeysNodup (fs.map Prod.fst) && jwfFields fs

/-- Well-formedness of array elements. -/
def jwfList : List JVal → Bool
  | [] => true
  | x :: xs => jwf x && jwfList xs

/-- Well-formedness of object member values. -/
def jwfFields : List (String × JVal) → Bool
  | [] => true
  | (_, v) :: fs => jwf v && jwfFields fs

end

mutual

/-- Scanner fuel sufficient for one serialized value. -/
def needV : JVal → Nat
  | .null | .bool _ | .num _ | .str _ => 1
  | .arr [] => 1
  | .arr (x :: xs) => 1 + needItems (x :: xs)
  | .obj [] => 1
  | .obj (f :: fs) => 1 + needMembers (f :: fs)

/-- Scanner fuel sufficient for serialized array items. -/
def needItems : List JVal → Nat
  | [] => 0
  | x :: xs => 1 + max (needV x) (needItems xs)

/-- Scanner fuel sufficient for serialized object members. -/
def needMembers : List (String × JVal) → Nat
  | [] => 0
  | (_, v) :: fs => 1 + max (needV v) (needMembers fs)

end

/-- The character after a serialized integer must not extend the literal:
not a digit, dot or exponent marker.  Serialized contexts put a comma,
closing bracket, closing brace or nothing there. -/
def numBoundary : List Char → Bool
  | [] => true
  | c :: _ => !c.isDigit && !(c = '.') && !(c = 'e') && !(c = 'E')

/-! # Verification -/

/-! ## General helper lemmas -/

/-- Computation rule for Char.ofNat below the surrogate range. -/
theorem charToNat_ofNat (n : Nat) (h : n < 55296) : (Char.ofNat n).toNat = n := by
  have hv : n.isValidChar := Or.inl h
  unfold Char.ofNat
  rw [dif_pos hv]
  simp [Char.ofNatAux, Char.toNat, UInt32.toNat, BitVec.toNat_ofNatLt]

/-- Characters with different code points differ. -/
theorem char_ne_of_toNat_ne {c d : Char} (h : c.toNat ≠ d.toNat) : c ≠ d :=
  fun he => h (by rw [he])

/-- Every list starts with the empty pattern. -/
theorem startsWithL_nil (l : List Char) : startsWithL l [] = true := by
  cases l <;> rfl

/-- A list starts with itself followed by anything. -/
theorem startsWithL_self (p r : List Char) : startsWithL (p ++ r) p = true := by
  induction p with
  | nil => exact startsWithL_nil r
  | cons c cs ih => simp [startsWithL, ih]

/-- The substring test succeeds when the text starts with the pattern. -/
theorem containsSubL_of_startsWith (l p : List Char)
    (h : startsWithL l p = true) : containsSubL l p = true := by
  rw [containsSubL.eq_def, h]
  simp

/-- A pattern occurring in the middle is found by the substring test. -/
theorem containsSubL_mid (a p c : List Char) :
    containsSubL (a ++ (p ++ c)) p = true := by
  induction a with
  | nil => exact containsSubL_of_startsWith _ _ (startsWithL_self p c)
  | cons x xs ih =>
    rw [containsSubL.eq_def]
    split
    · rfl
    · simpa using ih

/-- String-level substring occurrence. -/
theorem containsSubstr_mid (a p c : String) :
    containsSubstr (a ++ p ++ c) p = true := by
  unfold containsSubstr
  rw [String.data_append, String.data_append, List.append_assoc]
  exact containsSubL_mid a.data p.data c.data

/-! ## Round trip of the JSON string escaping -/

/-- Hex digits decode to their values. -/
theorem parseHexDigit_hexDigit (k : Nat) (h : k < 16) :
    parseHexDigit (hexDigit k) = some k := by
  interval_cases k <;> decide

/-- Digit characters are digits. -/
theorem digitChar_isDigit (k : Nat) (h : k < 10) :
    (digitChar k).isDigit = true := by
  interval_cases k <;> decide

/-- Escaping never shortens a string. -/
theorem length_le_escapeChars (l : List Char) :
    l.length ≤ (escapeChars l).length := by
  induction l with
  | nil => simp [escapeChars]
  | cons c cs ih =>
    have h1 : 1 ≤ (escapeChar c).length := by
      unfold escapeChar
      repeat' split
      all_goals simp
    simp only [escapeChars, List.length_append, List.length_cons]
    omega

/-- The string-body scanner inverts the escaper, given fuel above the
number of decoded characters. -/
theorem parseStringBody_escape (l : List Char) :
    ∀ (fuel : Nat) (rest : List Char), l.length < fuel →
    parseStringBody fuel (escapeChars l ++ '"' :: rest) = .ok (l, rest) := by
  induction l with
  | nil =>
    intro fuel rest hf
    match fuel, hf with
    | f + 1, _ => rfl
  | cons c cs ih =>
    intro fuel rest hf
    match fuel, hf with
    | f + 1, hf =>
    have hcs : cs.length < f := by
      simp only [List.length_cons] at hf; omega
    rw [escapeChars, List.append_assoc]
    by_cases h8 : c.toNat < 32
    · obtain ⟨t, ht, rfl⟩ : ∃ t, t < 32 ∧ c = Char.ofNat t :=
        ⟨c.toNat, h8, (Char.ofNat_toNat c).symm⟩
      interval_cases t <;>
        simp [escapeChar, parseStringBody, strTok, parseHexDigit, hexDigit,
          Except.map, ih f rest hcs]
    · by_cases h1 : c = '"'
      · subst h1
        simp [escapeChar, parseStringBody, strTok, Except.map, ih f rest hcs]
      · by_cases h2 : c = '\\'
        · subst h2
          simp [escapeChar, parseStringBody, strTok, Except.map,
            ih f rest hcs]
        · have h3 : c ≠ '\n' := fun he => h8 (he ▸ (by decide))
          have h4 : c ≠ '\r' := fun he => h8 (he ▸ (by decide))
          have h5 : c ≠ '\t' := fun he => h8 (he ▸ (by decide))
          have h6 : ¬ c.toNat = 8 := by omega
          have h7 : ¬ c.toNat = 12 := by omega
          rw [escapeChar, if_neg h1, if_neg h2, if_neg h3, if_neg h4,
            if_neg h5, if_neg h6, if_neg h7, if_neg h8]
          simp only [List.singleton_append, parseStringBody]
          rw [strTok.eq_def, if_neg h1, if_neg h2, if_neg h8]
          simp [Except.map, ih f rest hcs]

/-! ## Round trip of integer literals -/

/-- Digit characters have the expected code points. -/
theorem digitChar_toNat (k : Nat) (h : k < 10) :
    (digitChar k).toNat = 48 + k := by
  unfold digitChar
  exact charToNat_ofNat (48 + k) (by omega)

/-- Digits have code points between 48 and 57. -/
theorem isDigit_toNat (c : Char) (h : c.isDigit = true) :
    48 ≤ c.toNat ∧ c.toNat ≤ 57 := by
  simp only [Char.isDigit, decide_eq_true_eq, Bool.and_eq_true] at h
  obtain ⟨h1, h2⟩ := h
  constructor
  · exact h1
  · exact h2

/-- All characters emitted by the digit renderer are digits. -/
theorem natCharsAux_digits (fuel : Nat) :
    ∀ (n : Nat), n < fuel → ∀ c ∈ natCharsAux fuel n, c.isDigit = true := by
  induction fuel with
  | zero => intro n hn; omega
  | succ f ih =>
    intro n hn c hc
    rw [natCharsAux] at hc
    by_cases h10 : n < 10
    · rw [if_pos h10] at hc
      simp only [List.mem_singleton] at hc
      subst hc
      exact digitChar_isDigit n h10
    · rw [if_neg h10] at hc
      rcases List.mem_append.mp hc with h | h
      · have hlt : n / 10 < f := by
          have := Nat.div_lt_self (by omega : 0 < n) (by omega : 1 < 10)
          omega
        exact ih (n / 10) hlt c h
      · simp only [List.mem_singleton] at h
        subst h
        exact digitChar_isDigit _ (Nat.mod_lt n (by omega))

/-- The digit renderer never returns the empty list. -/
theorem natCharsAux_ne_nil (fuel n : Nat) (h : n < fuel) :
    natCharsAux fuel n ≠ [] := by
  match fuel, h with
  | f + 1, h =>
    rw [natCharsAux]
    by_cases h10 : n < 10
    · simp [h10]
    · simp [h10]

/-- The leading digit of a positive number is never zero. -/
theorem natCharsAux_head_ne_zero (fuel : Nat) :
    ∀ (n : Nat) (c : Char) (ds : List Char), n < fuel → 1 ≤ n →
    natCharsAux fuel n = c :: ds → c ≠ '0' := by
  induction fuel with
  | zero => intro n c ds hn; omega
  | succ f ih =>
    intro n c ds hn h1 he
    rw [natCharsAux] at he
    by_cases h10 : n < 10
    · rw [if_pos h10] at he
      have hc : c = digitChar n := ((List.cons.injEq _ _ _ _).mp he).1.symm
      subst hc
      interval_cases n <;> decide
    · rw [if_neg h10] at he
      have hlt : n / 10 < f := by
        have := Nat.div_lt_self (by omega : 0 < n) (by omega : 1 < 10)
        omega
      have h1' : 1 ≤ n / 10 := by omega
      obtain ⟨c', ds', he'⟩ : ∃ c' ds', natCharsAux f (n / 10) = c' :: ds' := by
        cases hh : natCharsAux f (n / 10) with
        | nil => exact absurd hh (natCharsAux_ne_nil f (n / 10) hlt)
        | cons c' ds' => exact ⟨c', ds', rfl⟩
      rw [he', List.cons_append] at he
      have hc : c = c' := ((List.cons.injEq _ _ _ _).mp he).1.symm
      subst hc
      exact ih (n / 10) c ds' hlt h1' he'

/-- Value computation distributes over a trailing digit. -/
theorem digitsVal_append_digit (a : List Char) (c : Char) :
    digitsVal (a ++ [c]) = 10 * digitsVal a + (c.toNat - 48) := by
  unfold digitsVal
  rw [List.foldl_append]
  simp [Nat.mul_comm]

/-- The digit renderer and the value function are inverse. -/
theorem digitsVal_natCharsAux (fuel : Nat) :
    ∀ (n : Nat), n < fuel → digitsVal (natCharsAux fuel n) = n := by
  induction fuel with
  | zero => intro n hn; omega
  | succ f ih =>
    intro n hn
    rw [natCharsAux]
    by_cases h10 : n < 10
    · rw [if_pos h10]
      unfold digitsVal
      simp [digitChar_toNat n h10]
    · rw [if_neg h10]
      have hlt : n / 10 < f := by
        have := Nat.div_lt_self (by omega : 0 < n) (by omega : 1 < 10)
        omega
      rw [digitsVal_append_digit, ih (n / 10) hlt,
        digitChar_toNat _ (Nat.mod_lt n (by omega))]
      omega

/-- The maximal digit run of digits followed by a boundary is exact. -/
theorem takeDigits_append (dcs rest : List Char)
    (hd : ∀ c ∈ dcs, c.isDigit = true) (hb : numBoundary rest = true) :
    takeDigits (dcs ++ rest) = (dcs, rest) := by
  induction dcs with
  | nil =>
    cases rest with
    | nil => rfl
    | cons c r =>
      simp only [numBoundary, Bool.and_eq_true, Bool.not_eq_true'] at hb
      simp [takeDigits, hb.1.1.1]
  | cons c cs ih =>
    have hc : c.isDigit = true := hd c (List.mem_cons_self c cs)
    simp only [List.cons_append, takeDigits, hc, if_pos, List.append_eq]
    rw [ih (fun x hx => hd x (List.mem_cons_of_mem c hx))]

/-- Unsigned integer literals round trip. -/
theorem parseUNumber_natChars (n : Nat) (rest : List Char)
    (hb : numBoundary rest = true) :
    parseUNumber (natChars n ++ rest) = .ok (n, rest) := by
  by_cases h0 : n = 0
  · subst h0
    have : natChars 0 = ['0'] := rfl
    rw [this]
    cases rest with
    | nil => rfl
    | cons c r =>
      simp only [numBoundary, Bool.and_eq_true, Bool.not_eq_true'] at hb
      simp [parseUNumber, checkNoFloat, hb.1.1.2, hb.1.2, hb.2]
  · have hn : n < n + 1 := Nat.lt_succ_self n
    obtain ⟨c, ds, he⟩ : ∃ c ds, natChars n = c :: ds := by
      cases hh : natChars n with
      | nil => exact absurd hh (natCharsAux_ne_nil (n + 1) n hn)
      | cons c ds => exact ⟨c, ds, rfl⟩
    have hdig : ∀ x ∈ natChars n, x.isDigit = true :=
      natCharsAux_digits (n + 1) n hn
    have hcd : c.isDigit = true := by
      apply hdig; rw [he]; exact List.mem_cons_self c ds
    have hc0 : c ≠ '0' :=
      natCharsAux_head_ne_zero (n + 1) n c ds hn (by omega) he
    rw [he, List.cons_append]
    rw [parseUNumber]
    rw [if_neg hc0, if_pos hcd]
    rw [takeDigits_append ds rest
      (fun x hx => hdig x (by rw [he]; exact List.mem_cons_of_mem c hx)) hb]
    dsimp only
    have hval : digitsVal (c :: ds) = n := by
      rw [← he]
      exact digitsVal_natCharsAux (n + 1) n hn
    rw [hval]
    cases rest with
    | nil => rfl
    | cons c2 r =>
      simp only [numBoundary, Bool.and_eq_true, Bool.not_eq_true'] at hb
      simp [checkNoFloat, hb.1.1.2, hb.1.2, hb.2]

/-- Signed integer literals round trip through the number scanner. -/
theorem parseNumber_intChars (n : Int) (rest : List Char)
    (hb : numBoundary rest = true) :
    parseNumber (intChars n ++ rest) = .ok (.num n, rest) := by
  by_cases hneg : n < 0
  · rw [intChars, if_pos hneg, List.cons_append, parseNumber]
    rw [if_pos rfl, parseUNumber_natChars n.natAbs rest hb]
    simp only [Except.map]
    congr 2
    rw [Int.ofNat_natAbs_of_nonpos (by omega)]
    ring
  · rw [intChars, if_neg hneg]
    obtain ⟨c, ds, he⟩ : ∃ c ds, natChars n.natAbs = c :: ds := by
      cases hh : natChars n.natAbs with
      | nil =>
        exact absurd hh
          (natCharsAux_ne_nil (n.natAbs + 1) n.natAbs (Nat.lt_succ_self _))
      | cons c ds => exact ⟨c, ds, rfl⟩
    have he' : natCharsAux (n.natAbs + 1) n.natAbs = c :: ds := he
    have hcd : c.isDigit = true := by
      apply natCharsAux_digits (n.natAbs + 1) n.natAbs (Nat.lt_succ_self _)
      rw [he']; exact List.mem_cons_self c ds
    have hcm : c ≠ '-' := by
      apply char_ne_of_toNat_ne
      have h1 := isDigit_toNat c hcd
      have h2 : ('-').toNat = 45 := by decide
      omega
    rw [he, List.cons_append, parseNumber, if_neg hcm, ← List.cons_append,
      ← he, parseUNumber_natChars n.natAbs rest hb]
    simp only [Except.map]
    rw [Int.natAbs_of_nonneg (le_of_not_lt hneg)]

/-! ## Round trip of whole serialized values -/

/-- Whitespace skipping is the identity on text whose head is none of the
four whitespace characters. -/
theorem jskipWs_not_ws (c : Char) (l : List Char)
    (h : (c = ' ' || c = '\t' || c = '\n' || c = '\r') = false) :
    jskipWs (c :: l) = c :: l := by
  rw [jskipWs, h]
  simp

/-- Whitespace skipping absorbs a leading space. -/
theorem jskipWs_space (l : List Char) : jskipWs (' ' :: l) = jskipWs l := by
  rw [jskipWs]
  simp

/-- The value scanner ignores a leading space. -/
theorem parseValue_space (fuel : Nat) (l : List Char) :
    parseValue fuel (' ' :: l) = parseValue fuel l := by
  cases fuel with
  | zero => rfl
  | succ f => rw [parseValue, parseValue, jskipWs_space]

/-- Integer renderings begin with a minus sign or a digit. -/
theorem intChars_head (n : Int) :
    ∃ c cs, intChars n = c :: cs ∧ (c = '-' ∨ c.isDigit = true) := by
  by_cases hneg : n < 0
  · exact ⟨'-', natChars n.natAbs, by rw [intChars, if_pos hneg],
      Or.inl rfl⟩
  · obtain ⟨c, ds, he⟩ : ∃ c ds, natChars n.natAbs = c :: ds := by
      cases hh : natChars n.natAbs with
      | nil =>
        exact absurd hh
          (natCharsAux_ne_nil (n.natAbs + 1) n.natAbs (Nat.lt_succ_self _))
      | cons c ds => exact ⟨c, ds, rfl⟩
    have he' : natCharsAux (n.natAbs + 1) n.natAbs = c :: ds := he
    have hcd : c.isDigit = true := by
      apply natCharsAux_digits (n.natAbs + 1) n.natAbs (Nat.lt_succ_self _)
      rw [he']; exact List.mem_cons_self c ds
    exact ⟨c, ds, by rw [intChars, if_neg hneg, he], Or.inr hcd⟩

/-- Serialized values begin with a value-start character. -/
theorem jdump_head (v : JVal) :
    ∃ c cs, jdump v = c :: cs ∧
      (c = lbrace ∨ c = '[' ∨ c = '"' ∨ c = 't' ∨ c = 'f' ∨ c = 'n'
        ∨ c = '-' ∨ c.isDigit = true) := by
  cases v with
  | null => exact ⟨'n', _, rfl, by simp⟩
  | bool bv => cases bv with
    | true => exact ⟨'t', _, rfl, by simp⟩
    | false => exact ⟨'f', _, rfl, by simp⟩
  | str s => exact ⟨'"', _, rfl, by simp⟩
  | num n =>
    obtain ⟨c, cs, he, hcd⟩ := intChars_head n
    refine ⟨c, cs, by rw [jdump, he], ?_⟩
    rcases hcd with h | h
    · subst h; simp
    · simp [h]
  | arr xs => cases xs with
    | nil => exact ⟨'[', _, rfl, by simp⟩
    | cons x xs => exact ⟨'[', _, rfl, by simp⟩
  | obj fs => cases fs with
    | nil => exact ⟨lbrace, _, rfl, by simp⟩
    | cons f fs => exact ⟨lbrace, _, rfl, by simp⟩

/-- Value-start characters are not whitespace, not closing tokens and not
commas; packaged for reuse. -/
theorem value_head_facts (c : Char)
    (h : c = lbrace ∨ c = '[' ∨ c = '"' ∨ c = 't' ∨ c = 'f' ∨ c = 'n'
      ∨ c = '-' ∨ c.isDigit = true) :
    (c = ' ' || c = '\t' || c = '\n' || c = '\r') = false
      ∧ c ≠ ']' ∧ c ≠ rbrace ∧ c ≠ ',' := by
  rcases h with h | h | h | h | h | h | h | h
  all_goals try (subst h; exact ⟨by decide, by decide, by decide, by decide⟩)
  have hd := isDigit_toNat c h
  have hsp : (' ').toNat = 32 := by decide
  have hht : ('\t').toNat = 9 := by decide
  have hnl : ('\n').toNat = 10 := by decide
  have hcr : ('\r').toNat = 13 := by decide
  have hrb : (']').toNat = 93 := by decide
  have hbr : rbrace.toNat = 125 := by decide
  have hcm : (',').toNat = 44 := by decide
  refine ⟨?_, char_ne_of_toNat_ne (by omega), char_ne_of_toNat_ne (by omega),
    char_ne_of_toNat_ne (by omega)⟩
  simp only [Bool.or_eq_false_iff, decide_eq_false_iff_not]
  exact ⟨⟨⟨char_ne_of_toNat_ne (by omega), char_ne_of_toNat_ne (by omega)⟩,
    char_ne_of_toNat_ne (by omega)⟩, char_ne_of_toNat_ne (by omega)⟩

/-- Inserting a fresh key appends. -/
theorem dictInsert_append (acc : List (String × JVal)) (k : String) (v : JVal)
    (h : (acc.map Prod.fst).contains k = false) :
    dictInsert acc k v = acc ++ [(k, v)] := by
  induction acc with
  | nil => rfl
  | cons a rest ih =>
    obtain ⟨k0, v0⟩ := a
    simp only [List.map_cons, List.contains_cons, Bool.or_eq_false_iff] at h
    rw [dictInsert]
    have hne : k0 ≠ k := by
      intro he
      subst he
      simp at h
    rw [if_neg hne, ih h.2]
    rfl

/-- In a duplicate-free key list, keys left of an occurrence differ from it. -/
theorem keysNodup_not_contains (l1 : List String) :
    ∀ (k : String) (l2 : List String),
    jwfKeysNodup (l1 ++ k :: l2) = true → l1.contains k = false := by
  induction l1 with
  | nil => intro k l2 _; rfl
  | cons a l1 ih =>
    intro k l2 h
    rw [List.cons_append, jwfKeysNodup] at h
    simp only [Bool.and_eq_true, Bool.not_eq_true'] at h
    obtain ⟨hc, hrest⟩ := h
    have hak : a ≠ k := by
      intro he
      subst he
      have hmem : a ∈ l1 ++ a :: l2 := by simp
      have : (l1 ++ a :: l2).contains a = true := by
        simpa [List.contains] using List.elem_eq_true_of_mem hmem
      rw [this] at hc
      exact Bool.noConfusion hc
    rw [List.contains_cons]
    simp only [Bool.or_eq_false_iff]
    constructor
    · simp [beq_eq_false_iff_ne]
      exact fun he => hak he.symm
    · exact ih k l2 hrest

/-- The item loop ignores a leading space (through the value scanner). -/
theorem parseItems_space (fuel : Nat) (l : List Char) (acc : List JVal) :
    parseItems fuel (' ' :: l) acc = parseItems fuel l acc := by
  cases fuel with
  | zero => rfl
  | succ f => rw [parseItems, parseItems, parseValue_space]

/-- The value scanner dispatches integer literals to the number scanner. -/
theorem parseValue_number (f : Nat) (c : Char) (l : List Char)
    (h : c = '-' ∨ c.isDigit = true) :
    parseValue (f + 1) (c :: l) = parseNumber (c :: l) := by
  rcases h with rfl | h
  · rfl
  · have hd := isDigit_toNat c h
    have hbr : lbrace.toNat = 123 := by decide
    have hsq : ('[').toNat = 91 := by decide
    have hqq : ('"').toNat = 34 := by decide
    have hvt : ('t').toNat = 116 := by decide
    have hvf : ('f').toNat = 102 := by decide
    have hvn : ('n').toNat = 110 := by decide
    have hsp : (' ').toNat = 32 := by decide
    have hht : ('\t').toNat = 9 := by decide
    have hnl : ('\n').toNat = 10 := by decide
    have hcr : ('\r').toNat = 13 := by decide
    rw [parseValue,
      jskipWs_not_ws c l (by
        simp only [Bool.or_eq_false_iff, decide_eq_false_iff_not]
        exact ⟨⟨⟨char_ne_of_toNat_ne (by omega),
          char_ne_of_toNat_ne (by omega)⟩,
          char_ne_of_toNat_ne (by omega)⟩, char_ne_of_toNat_ne (by omega)⟩)]
    dsimp only
    rw [if_neg (show ¬ c = lbrace from char_ne_of_toNat_ne (by omega)),
      if_neg (show ¬ c = '[' from char_ne_of_toNat_ne (by omega)),
      if_neg (show ¬ c = '"' from char_ne_of_toNat_ne (by omega)),
      if_neg (show ¬ c = 't' from char_ne_of_toNat_ne (by omega)),
      if_neg (show ¬ c = 'f' from char_ne_of_toNat_ne (by omega)),
      if_neg (show ¬ c = 'n' from char_ne_of_toNat_ne (by omega)),
      if_pos (show (c = '-' || c.isDigit) = true by rw [h]; simp)]

/-- Every value needs at least one unit of scanner fuel. -/
theorem needV_pos (v : JVal) : 1 ≤ needV v := by
  cases v with
  | arr xs => cases xs <;> simp [needV]
  | obj fs => cases fs <;> simp [needV]
  | null => simp [needV]
  | bool b => simp [needV]
  | num n => simp [needV]
  | str s => simp [needV]

mutual

/-- The value scanner inverts the serializer on well-formed values, for
sufficient fuel and a non-extending continuation. -/
theorem roundValue (v : JVal) (fuel : Nat) (rest : List Char)
    (hf : needV v ≤ fuel) (hb : numBoundary rest = true)
    (hw : jwf v = true) :
    parseValue fuel (jdump v ++ rest) = .ok (v, rest) := by
  obtain ⟨f, rfl⟩ : ∃ m, fuel = m + 1 :=
    ⟨fuel - 1, by have := needV_pos v; omega⟩
  cases v with
  | null => exact rfl
  | bool b => cases b <;> exact rfl
  | num n =>
    obtain ⟨c, cs, he, hcd⟩ := intChars_head n
    have hj : jdump (.num n) ++ rest = c :: (cs ++ rest) := by
      rw [show jdump (.num n) = intChars n from rfl, he]
      simp
    rw [hj, parseValue_number f c (cs ++ rest) hcd]
    have h2 : c :: (cs ++ rest) = intChars n ++ rest := by
      rw [he]; simp
    rw [h2, parseNumber_intChars n rest hb]
  | str s =>
    have hshape : jdump (.str s) ++ rest
        = '"' :: (escapeChars s.data ++ '"' :: rest) := by
      rw [jdump]; simp
    rw [hshape]
    show Except.map
        (fun (p : List Char × List Char) => ((JVal.str (String.mk p.1)), p.2))
        (parseStringBody ((escapeChars s.data ++ '"' :: rest).length + 1)
          (escapeChars s.data ++ '"' :: rest))
        = Except.ok (JVal.str s, rest)
    rw [parseStringBody_escape s.data _ rest (by
      have := length_le_escapeChars s.data
      simp only [List.length_append, List.length_cons]
      omega)]
    rfl
  | arr xs =>
    cases xs with
    | nil => exact rfl
    | cons x xs =>
      have hshape : jdump (.arr (x :: xs)) ++ rest
          = '[' :: (jdump x ++ (jdumpArrTail xs ++ ']' :: rest)) := by
        rw [jdump]; simp
      rw [hshape]
      obtain ⟨c0, cs0, he0, hh0⟩ := jdump_head x
      obtain ⟨hws0, hne1, hne2, hne3⟩ := value_head_facts c0 hh0
      have hT : jdump x ++ (jdumpArrTail xs ++ ']' :: rest)
          = c0 :: (cs0 ++ (jdumpArrTail xs ++ ']' :: rest)) := by
        rw [he0]; simp
      rw [parseValue, jskipWs_not_ws _ _ (by decide)]
      dsimp only
      rw [if_neg (by decide : ¬ ('[' : Char) = lbrace), if_pos rfl]
      rw [hT, jskipWs_not_ws _ _ hws0]
      dsimp only
      rw [if_neg hne1, ← hT]
      have h1 : needItems (x :: xs) ≤ f := by
        rw [needV] at hf; omega
      have h2 : jwfList (x :: xs) = true := by rw [jwf] at hw; exact hw
      have := roundItems x xs f [] rest h1 hb h2
      simpa using this
  | obj fs =>
    cases fs with
    | nil => exact rfl
    | cons f0 fs =>
      obtain ⟨k, v0⟩ := f0
      have hshape : jdump (.obj ((k, v0) :: fs)) ++ rest
          = lbrace :: (jdumpField (k, v0)
              ++ (jdumpObjTail fs ++ rbrace :: rest)) := by
        rw [jdump]; simp
      rw [hshape]
      have hT : jdumpField (k, v0) ++ (jdumpObjTail fs ++ rbrace :: rest)
          = '"' :: (escapeChars k.data
              ++ '"' :: ':' :: ' '
                :: (jdump v0 ++ (jdumpObjTail fs ++ rbrace :: rest))) := by
        rw [jdumpField]; simp
      rw [parseValue, jskipWs_not_ws _ _ (by decide)]
      dsimp only
      rw [if_pos rfl]
      rw [hT, jskipWs_not_ws _ _ (by decide)]
      dsimp only
      rw [if_neg (by decide : ¬ ('"' : Char) = rbrace), ← hT]
      have h1 : needMembers ((k, v0) :: fs) ≤ f := by
        rw [needV] at hf; omega
      have h2 : jwfFields ((k, v0) :: fs) = true := by
        rw [jwf, Bool.and_eq_true] at hw; exact hw.2
      have h3 : jwfKeysNodup (([] ++ (k, v0) :: fs).map Prod.fst) = true := by
        rw [jwf, Bool.and_eq_true] at hw
        simpa using hw.1
      have := roundMembers k v0 fs f [] rest h1 hb h2 h3
      simpa using this
termination_by (fuel, 0)
decreasing_by all_goals (simp_wf; omega)

/-- The item loop inverts the serialized item list. -/
theorem roundItems (x : JVal) (xs : List JVal) (fuel : Nat)
    (acc : List JVal) (rest : List Char)
    (hf : needItems (x :: xs) ≤ fuel) (hb : numBoundary rest = true)
    (hw : jwfList (x :: xs) = true) :
    parseItems fuel (jdump x ++ (jdumpArrTail xs ++ ']' :: rest)) acc
      = .ok (.arr (acc ++ x :: xs), rest) := by
  obtain ⟨f, rfl⟩ : ∃ m, fuel = m + 1 :=
    ⟨fuel - 1, by rw [needItems] at hf; omega⟩
  rw [jwfList, Bool.and_eq_true] at hw
  rw [parseItems]
  have hbx : numBoundary (jdumpArrTail xs ++ ']' :: rest) = true := by
    cases xs <;> rfl
  rw [roundValue x f _ (by rw [needItems] at hf; omega) hbx hw.1]
  dsimp only
  cases xs with
  | nil => exact rfl
  | cons y ys =>
    have hsh : jdumpArrTail (y :: ys) ++ ']' :: rest
        = ',' :: ' ' :: (jdump y ++ (jdumpArrTail ys ++ ']' :: rest)) := by
      rw [jdumpArrTail]; simp
    rw [hsh, jskipWs_not_ws _ _ (by decide)]
    simp only []
    rw [parseItems_space]
    have h1 : needItems (y :: ys) ≤ f := by
      rw [needItems] at hf
      have := le_max_right (needV x) (needItems (y :: ys))
      omega
    rw [roundItems y ys f (acc ++ [x]) rest h1 hb hw.2]
    simp
termination_by (fuel, 1)
decreasing_by all_goals (simp_wf; omega)

/-- The member loop inverts the serialized member list, accumulating by
dict insertion, which appends because keys never repeat. -/
theorem roundMembers (k : String) (v : JVal) (fs : List (String × JVal))
    (fuel : Nat) (acc : List (String × JVal)) (rest : List Char)
    (hf : needMembers ((k, v) :: fs) ≤ fuel) (hb : numBoundary rest = true)
    (hw : jwfFields ((k, v) :: fs) = true)
    (hn : jwfKeysNodup ((acc ++ (k, v) :: fs).map Prod.fst) = true) :
    parseMembers fuel
        (jdumpField (k, v) ++ (jdumpObjTail fs ++ rbrace :: rest)) acc
      = .ok (.obj (acc ++ (k, v) :: fs), rest) := by
  obtain ⟨f, rfl⟩ : ∃ m, fuel = m + 1 :=
    ⟨fuel - 1, by rw [needMembers] at hf; omega⟩
  rw [jwfFields, Bool.and_eq_true] at hw
  have hsh : jdumpField (k, v) ++ (jdumpObjTail fs ++ rbrace :: rest)
      = '"' :: (escapeChars k.data
          ++ '"' :: ':' :: ' '
            :: (jdump v ++ (jdumpObjTail fs ++ rbrace :: rest))) := by
    rw [jdumpField]; simp
  rw [hsh, parseMembers]
  dsimp only
  rw [if_pos rfl]
  rw [parseStringBody_escape k.data _ _ (by
    have := length_le_escapeChars k.data
    simp only [List.length_append, List.length_cons]
    omega)]
  simp only []
  rw [jskipWs_not_ws _ _ (by decide)]
  simp only []
  rw [parseValue_space]
  have hbv : numBoundary (jdumpObjTail fs ++ rbrace :: rest) = true := by
    cases fs <;> rfl
  have h1 : needV v ≤ f := by
    rw [needMembers] at hf
    have := le_max_left (needV v) (needMembers fs)
    omega
  rw [roundValue v f _ h1 hbv hw.1]
  simp only []
  have hcontains : (acc.map Prod.fst).contains k = false := by
    have hmap : (acc ++ (k, v) :: fs).map Prod.fst
        = acc.map Prod.fst ++ k :: fs.map Prod.fst := by simp
    rw [hmap] at hn
    exact keysNodup_not_contains _ k _ hn
  rw [show String.mk k.data = k from rfl, dictInsert_append acc k v hcontains]
  cases fs with
  | nil => exact rfl
  | cons f2 fs' =>
    obtain ⟨k2, v2⟩ := f2
    have hsh2 : jdumpObjTail ((k2, v2) :: fs') ++ rbrace :: rest
        = ',' :: ' '
          :: (jdumpField (k2, v2) ++ (jdumpObjTail fs' ++ rbrace :: rest)) := by
      rw [jdumpObjTail]; simp
    rw [hsh2, jskipWs_not_ws _ _ (by decide)]
    simp only []
    rw [jskipWs_space]
    have hsh3 : jdumpField (k2, v2) ++ (jdumpObjTail fs' ++ rbrace :: rest)
        = '"' :: (escapeChars k2.data
            ++ '"' :: ':' :: ' '
              :: (jdump v2 ++ (jdumpObjTail fs' ++ rbrace :: rest))) := by
      rw [jdumpField]; simp
    rw [hsh3, jskipWs_not_ws _ _ (by decide), ← hsh3]
    have h2 : needMembers ((k2, v2) :: fs') ≤ f := by
      rw [needMembers] at hf
      have := le_max_right (needV v) (needMembers ((k2, v2) :: fs'))
      omega
    have h3 : jwfKeysNodup
        (((acc ++ [(k, v)]) ++ (k2, v2) :: fs').map Prod.fst) = true := by
      rw [← List.append_cons]
      exact hn
    rw [roundMembers k2 v2 fs' f (acc ++ [(k, v)]) rest h2 hb hw.2 h3]
    simp
termination_by (fuel, 1)
decreasing_by all_goals (simp_wf; omega)

end

mutual

/-- Scanner fuel demand is below the serialized length plus one. -/
theorem needV_le : (v : JVal) → needV v ≤ (jdump v).length + 1
  | .null => by simp [needV, jdump]
  | .bool true => by simp [needV, jdump]
  | .bool false => by simp [needV, jdump]
  | .num n => by simp [needV]
  | .str s => by simp [needV]
  | .arr [] => by simp [needV, jdump]
  | .arr (x :: xs) => by
    have h := needItems_le x xs
    simp only [needV, jdump, List.length_cons, List.length_append] at *
    omega
  | .obj [] => by simp [needV, jdump]
  | .obj ((k, v) :: fs) => by
    have h := needMembers_le k v fs
    simp only [needV, jdump, List.length_cons, List.length_append] at *
    omega
termination_by v => sizeOf v

/-- Item loop fuel demand bound. -/
theorem needItems_le : (x : JVal) → (xs : List JVal) →
    needItems (x :: xs) ≤ (jdump x ++ jdumpArrTail xs).length + 2
  | x, [] => by
    have h := needV_le x
    simp only [needItems, needItems.eq_1, jdumpArrTail, List.append_nil,
      List.length_append] at *
    omega
  | x, y :: ys => by
    have h1 := needV_le x
    have h2 := needItems_le y ys
    simp only [needItems, jdumpArrTail, List.length_cons, List.length_append,
      Nat.max_le] at *
    omega
termination_by x xs => 1 + sizeOf x + sizeOf xs

/-- Member loop fuel demand bound. -/
theorem needMembers_le : (k : String) → (v : JVal) →
    (fs : List (String × JVal)) →
    needMembers ((k, v) :: fs)
      ≤ (jdumpField (k, v) ++ jdumpObjTail fs).length + 2
  | k, v, [] => by
    have h := needV_le v
    simp only [needMembers, needMembers.eq_1, jdumpField, jdumpObjTail,
      List.append_nil, List.length_append, List.length_cons] at *
    omega
  | k, v, (k2, v2) :: fs' => by
    have h1 := needV_le v
    have h2 := needMembers_le k2 v2 fs'
    simp only [needMembers, jdumpField, jdumpObjTail, List.length_cons,
      List.length_append, Nat.max_le] at *
    omega
termination_by k v fs => 1 + sizeOf v + sizeOf fs

end

/-- Strict loads inverts dumps on well-formed values. -/
theorem json_loads_dumps (v : JVal) (hw : jwf v = true) :
    json_loads (json_dumps v) = .ok v := by
  unfold json_loads json_dumps
  have hd : (String.mk (jdump v)).data = jdump v := rfl
  rw [hd]
  have hfuel : needV v ≤ (jdump v).length + 2 := by
    have := needV_le v
    omega
  have hr := roundValue v ((jdump v).length + 2) [] hfuel rfl hw
  rw [List.append_nil] at hr
  rw [hr]
  rfl

/-- Text starting with the pattern contains it. -/
theorem containsSubstr_left (p c : String) : containsSubstr (p ++ c) p = true := by
  unfold containsSubstr
  rw [String.data_append]
  exact containsSubL_of_startsWith _ _ (startsWithL_self p.data c.data)

/-! ## Claims on the JSON recovery layer -/

/-- Claim C9: for every JSON-representable Python object, parsing the
output of json.dumps succeeds on the strict tier (no narrowing, no log)
and returns an object deeply equal to the original.  Float-valued leaves
are outside the shallow embedding; well-formedness states that every
object node carries pairwise distinct keys, as every Python dict does. -/
theorem extractJson_dumps_roundtrip (v : JVal) (context : String)
    (hw : jwf v = true) :
    parse_json_from_text (json_dumps v) context = ([], .ok v) := by
  unfold parse_json_from_text
  rw [json_loads_dumps v hw]

/-- Witness for claim C9 at a concrete object. -/
theorem extractJson_dumps_roundtrip_witness :
    parse_json_from_text
        (json_dumps (JVal.obj
          [("a", .num 1), ("b", .arr [.num 2, .num 3])]))
        "ClassificationAgent"
      = ([], .ok (JVal.obj [("a", .num 1), ("b", .arr [.num 2, .num 3])])) :=
  extractJson_dumps_roundtrip
    (JVal.obj [("a", .num 1), ("b", .arr [.num 2, .num 3])])
    "ClassificationAgent" rfl

/-- Claim C3: the recovery parser tries a strict parse of the whole text
first; when that fails it parses exactly the span from the first opening
brace to the last closing brace; and on the concrete narration-wrapped
input it returns the embedded object, for any calling context. -/
theorem extractJson_two_tier :
    (∀ (raw context : String) (v : JVal),
      json_loads raw = .ok v →
      parse_json_from_text raw context = ([], .ok v))
    ∧ (∀ (raw context e : String),
      json_loads raw = .error e →
      pyFind raw.data lbrace ≠ -1 →
      pyRFind raw.data rbrace + 1 > pyFind raw.data lbrace →
      parse_json_from_text raw context
        = ([nonPureJsonWarning context e],
            json_loads (String.mk (pySlice raw.data (pyFind raw.data lbrace)
              (pyRFind raw.data rbrace + 1)))))
    ∧ (∀ context : String,
      (parse_json_from_text
        "noise \x7b\"a\":1,\"b\":[2,3]\x7d trailing noise" context).2
        = .ok (JVal.obj [("a", .num 1), ("b", .arr [.num 2, .num 3])])) := by
  refine ⟨?_, ?_, ?_⟩
  · intro raw context v h
    unfold parse_json_from_text
    rw [h]
  · intro raw context e h h1 h2
    unfold parse_json_from_text
    rw [h]
    simp only []
    rw [if_pos (show pyFind raw.data lbrace ≠ -1
      ∧ pyRFind raw.data rbrace + 1 > pyFind raw.data lbrace from ⟨h1, h2⟩)]
  · intro context
    rfl

/-- Witness for claim C3 at the concrete input of the specification. -/
theorem extractJson_two_tier_witness :
    (parse_json_from_text
      "noise \x7b\"a\":1,\"b\":[2,3]\x7d trailing noise" "ProcessingAgent").2
      = .ok (JVal.obj [("a", .num 1), ("b", .arr [.num 2, .num 3])]) :=
  extractJson_two_tier.2.2 "ProcessingAgent"

/-- Claim C4, counterexample: on the unrecoverable input the function
re-raises the original parse error unchanged, and that raised message does
not carry the calling context; the context reaches only the logger. -/
theorem extractJson_raised_error_lacks_context :
    (parse_json_from_text "not json at all" "ClassificationAgent").2
        = .error "Expecting value"
      ∧ containsSubstr "Expecting value" "ClassificationAgent" = false := by
  exact ⟨rfl, rfl⟩

/-- Claim C4, amended: on a text that is not strict JSON and offers no
brace-delimited span, the call fails by re-raising the original parse
error, and the logger output carries the calling context together with the
parse error and the repr of the offending raw text. -/
theorem extractJson_failure_logged_with_context (raw context e : String)
    (h : json_loads raw = .error e)
    (hbr : ¬ (pyFind raw.data lbrace ≠ -1
      ∧ pyRFind raw.data rbrace + 1 > pyFind raw.data lbrace)) :
    parse_json_from_text raw context
        = ([invalidJsonError context e raw], .error e)
      ∧ containsSubstr (invalidJsonError context e raw) context = true
      ∧ containsSubstr (invalidJsonError context e raw) e = true
      ∧ containsSubstr (invalidJsonError context e raw) (pyReprStr raw)
          = true := by
  refine ⟨?_, ?_, ?_, ?_⟩
  · unfold parse_json_from_text
    rw [h]
    simp only []
    rw [if_neg hbr]
  · have h2 : invalidJsonError context e raw
        = context ++ ((": invalid JSON after extraction: " ++ e
            ++ " | text=") ++ pyReprStr raw) := by
      unfold invalidJsonError
      simp [String.append_assoc]
    rw [h2]
    exact containsSubstr_left context _
  · have h2 : invalidJsonError context e raw
        = (context ++ ": invalid JSON after extraction: ") ++ e
            ++ (" | text=" ++ pyReprStr raw) := by
      unfold invalidJsonError
      simp [String.append_assoc]
    rw [h2]
    exact containsSubstr_mid _ e _
  · have h2 : invalidJsonError context e raw
        = (context ++ ": invalid JSON after extraction: " ++ e
            ++ " | text=") ++ pyReprStr raw ++ "" := by
      unfold invalidJsonError
      simp [String.append_assoc]
    rw [h2]
    exact containsSubstr_mid _ (pyReprStr raw) ""

/-- Witness for the amended claim C4 at the concrete input of the
specification. -/
theorem extractJson_failure_logged_with_context_witness :
    parse_json_from_text "not json at all" "ClassificationAgent"
        = ([invalidJsonError "ClassificationAgent" "Expecting value"
            "not json at all"], .error "Expecting value")
      ∧ containsSubstr
          (invalidJsonError "ClassificationAgent" "Expecting value"
            "not json at all") "ClassificationAgent" = true :=
  ⟨(extractJson_failure_logged_with_context "not json at all"
      "ClassificationAgent" "Expecting value" rfl (by decide)).1,
    (extractJson_failure_logged_with_context "not json at all"
      "ClassificationAgent" "Expecting value" rfl (by decide)).2.1⟩

/-! ## Claims on the direct-read extraction path -/

/-- Claim C5, counterexample: a json-suffixed key whose content type is not
textual decodes strictly, so invalid UTF-8 bytes raise a
UnicodeDecodeError instead of producing a best-effort string. -/
theorem read_s3_json_suffix_raises :
    read_s3_object_as_text "a.json" (some "application/json") [255]
      = .error "UnicodeDecodeError: invalid utf-8 in a.json" := rfl

/-- Claim C5, amended: the direct-read path raises exactly when the
content type is not textual, the key ends in .json and the body is not
valid UTF-8; in every other case it returns a best-effort string (UTF-8
with a latin-1 fallback on textual content, UTF-8 with invalid sequences
dropped otherwise). -/
theorem read_s3_error_characterization (key : String)
    (contentTypeHeader : Option String) (body : List Nat) :
    (∃ e, read_s3_object_as_text key contentTypeHeader body
        = Except.error e)
      ↔ ((strStartsWith (effectiveContentType key contentTypeHeader) "text/"
            || strEndsWith (strLower key) ".html"
            || strEndsWith (strLower key) ".htm") = false
          ∧ strEndsWith (strLower key) ".json" = true
          ∧ pyDecodeUtf8Strict body = none) := by
  unfold read_s3_object_as_text
  simp only []
  split_ifs with h1 h2
  · cases hdec : pyDecodeUtf8Strict body <;> simp [hdec, h1]
  · cases hdec : pyDecodeUtf8Strict body <;> simp [hdec, h1, h2]
  · simp [h1, h2]

/-! ## Claims on the response normalizer -/

/-- A contained key is gettable. -/
theorem pyContainsKey_get (entries : List (String × PyValue)) (k : String)
    (h : pyContainsKey entries k = true) :
    ∃ w, pyDictGet entries k = some w := by
  induction entries with
  | nil => simp [pyContainsKey] at h
  | cons e rest ih =>
    obtain ⟨k0, v0⟩ := e
    rw [pyContainsKey] at h
    rw [pyDictGet]
    by_cases hk : k0 = k
    · exact ⟨v0, by rw [if_pos hk]⟩
    · simp [hk] at h
      rw [if_neg hk]
      exact ih h

/-- A guarded subscript never raises. -/
theorem pySubscript_ok (entries : List (String × PyValue)) (k : String)
    (h : pyContainsKey entries k = true) :
    ∃ w, pySubscript (.pyDict entries) k = .ok w := by
  obtain ⟨w, hw⟩ := pyContainsKey_get entries k h
  exact ⟨w, by rw [pySubscript, hw]⟩

/-- A guarded attribute access never raises. -/
theorem pyHasattr_getattr (v : PyValue) (k : String)
    (h : pyHasattr v k = true) : ∃ w, pyGetattr v k = .ok w := by
  cases v with
  | pyObj attrs =>
    rw [pyHasattr] at h
    obtain ⟨w, hw⟩ := pyContainsKey_get attrs k h
    exact ⟨w, by rw [pyGetattr, hw]⟩
  | pyNone => simp [pyHasattr] at h
  | pyBool b => simp [pyHasattr] at h
  | pyInt n => simp [pyHasattr] at h
  | pyStr s => simp [pyHasattr] at h
  | pyList xs => simp [pyHasattr] at h
  | pyDict entries => simp [pyHasattr] at h

/-- The late probes never raise. -/
theorem extractTextMsgText_ok (resp : PyValue) :
    ∃ v, extractTextMsgText resp = .ok v := by
  rw [extractTextMsgText]
  by_cases h1 : pyHasattr resp "message" = true
  · rw [if_pos h1]
    obtain ⟨m, hm⟩ := pyHasattr_getattr resp "message" h1
    rw [hm]
    cases m with
    | pyStr s => exact ⟨.pyStr s, rfl⟩
    | pyNone | pyBool _ | pyInt _ | pyList _ | pyDict _ | pyObj _ =>
      by_cases h3 : pyHasattr resp "text" = true
      · rw [if_pos h3]
        obtain ⟨t, ht⟩ := pyHasattr_getattr resp "text" h3
        rw [ht]
        cases t <;> exact ⟨_, rfl⟩
      · rw [if_neg h3]
        exact ⟨_, rfl⟩
  · rw [if_neg h1]
    by_cases h2 : pyHasattr resp "text" = true
    · rw [if_pos h2]
      obtain ⟨t, ht⟩ := pyHasattr_getattr resp "text" h2
      rw [ht]
      cases t <;> exact ⟨_, rfl⟩
    · rw [if_neg h2]
      exact ⟨_, rfl⟩

/-- The attribute probes never raise. -/
theorem extractTextAttrPart_ok (resp : PyValue) :
    ∃ v, extractTextAttrPart resp = .ok v := by
  rw [extractTextAttrPart]
  split_ifs with h1
  · obtain ⟨blocks, hb⟩ := pyHasattr_getattr resp "content" h1
    rw [hb]
    cases blocks with
    | pyList xs =>
      cases xs with
      | nil => exact extractTextMsgText_ok resp
      | cons first restL =>
        simp only []
        split_ifs with h2
        · exact pyHasattr_getattr first "text" h2
        · exact extractTextMsgText_ok resp
    | pyNone | pyBool _ | pyInt _ | pyStr _ | pyDict _ | pyObj _ =>
      exact extractTextMsgText_ok resp
  · exact extractTextMsgText_ok resp

/-- The top-level mapping key probes never raise. -/
theorem extractTextDictKeys_ok (entries : List (String × PyValue)) :
    ∃ v, extractTextDictKeys (.pyDict entries) entries = .ok v := by
  cases ht : pyDictGet entries "text" with
  | some w =>
    cases w with
    | pyStr s =>
      exact ⟨.pyStr s, by rw [extractTextDictKeys]; simp [ht, pySubscript]⟩
    | pyNone | pyBool _ | pyInt _ | pyList _ | pyDict _ | pyObj _ =>
      cases hm : pyDictGet entries "message" with
      | some w2 =>
        cases w2 with
        | pyStr s =>
          exact ⟨.pyStr s,
            by rw [extractTextDictKeys]; simp [ht, hm, pySubscript]⟩
        | pyNone | pyBool _ | pyInt _ | pyList _ | pyDict _ | pyObj _ =>
          cases ho : pyDictGet entries "output" with
          | some w3 =>
            cases w3 with
            | pyStr s =>
              exact ⟨.pyStr s,
                by rw [extractTextDictKeys]; simp [ht, hm, ho, pySubscript]⟩
            | pyNone | pyBool _ | pyInt _ | pyList _ | pyDict _ | pyObj _ =>
              obtain ⟨v, hv⟩ := extractTextAttrPart_ok (.pyDict entries)
              exact ⟨v,
                by rw [extractTextDictKeys]; simp [ht, hm, ho, hv]⟩
          | none =>
            obtain ⟨v, hv⟩ := extractTextAttrPart_ok (.pyDict entries)
            exact ⟨v, by rw [extractTextDictKeys]; simp [ht, hm, ho, hv]⟩
      | none =>
        cases ho : pyDictGet entries "output" with
        | some w3 =>
          cases w3 with
          | pyStr s =>
            exact ⟨.pyStr s,
              by rw [extractTextDictKeys]; simp [ht, hm, ho, pySubscript]⟩
          | pyNone | pyBool _ | pyInt _ | pyList _ | pyDict _ | pyObj _ =>
            obtain ⟨v, hv⟩ := extractTextAttrPart_ok (.pyDict entries)
            exact ⟨v, by rw [extractTextDictKeys]; simp [ht, hm, ho, hv]⟩
        | none =>
          obtain ⟨v, hv⟩ := extractTextAttrPart_ok (.pyDict entries)
          exact ⟨v, by rw [extractTextDictKeys]; simp [ht, hm, ho, hv]⟩
  | none =>
    cases hm : pyDictGet entries "message" with
    | some w2 =>
      cases w2 with
      | pyStr s =>
        exact ⟨.pyStr s,
          by rw [extractTextDictKeys]; simp [ht, hm, pySubscript]⟩
      | pyNone | pyBool _ | pyInt _ | pyList _ | pyDict _ | pyObj _ =>
        cases ho : pyDictGet entries "output" with
        | some w3 =>
          cases w3 with
          | pyStr s =>
            exact ⟨.pyStr s,
              by rw [extractTextDictKeys]; simp [ht, hm, ho, pySubscript]⟩
          | pyNone | pyBool _ | pyInt _ | pyList _ | pyDict _ | pyObj _ =>
            obtain ⟨v, hv⟩ := extractTextAttrPart_ok (.pyDict entries)
            exact ⟨v, by rw [extractTextDictKeys]; simp [ht, hm, ho, hv]⟩
        | none =>
          obtain ⟨v, hv⟩ := extractTextAttrPart_ok (.pyDict entries)
          exact ⟨v, by rw [extractTextDictKeys]; simp [ht, hm, ho, hv]⟩
    | none =>
      cases ho : pyDictGet entries "output" with
      | some w3 =>
        cases w3 with
        | pyStr s =>
          exact ⟨.pyStr s,
            by rw [extractTextDictKeys]; simp [ht, hm, ho, pySubscript]⟩
        | pyNone | pyBool _ | pyInt _ | pyList _ | pyDict _ | pyObj _ =>
          obtain ⟨v, hv⟩ := extractTextAttrPart_ok (.pyDict entries)
          exact ⟨v, by rw [extractTextDictKeys]; simp [ht, hm, ho, hv]⟩
      | none =>
        obtain ⟨v, hv⟩ := extractTextAttrPart_ok (.pyDict entries)
        exact ⟨v, by rw [extractTextDictKeys]; simp [ht, hm, ho, hv]⟩

/-- Claim C6, counterexample: the content-list text projection is returned
verbatim without a string check, so a non-string text field makes the
normalizer return a non-string value. -/
theorem normalizer_returns_nonstring :
    extract_text_from_agent_response
        (.pyDict [("content", .pyList [.pyDict [("text", .pyInt 42)]])])
      = .ok (.pyInt 42)
    ∧ ∀ s, PyValue.pyInt 42 ≠ PyValue.pyStr s := by
  refine ⟨rfl, fun s h => ?_⟩
  cases h

/-- Claim C6, amended: the normalizer is total — for every response value
it returns a value without raising (every partial access is guarded); the
result is the projected field, a string in every branch that checks str
and in the generic fallback. -/
theorem normalizer_never_raises (resp : PyValue) :
    ∃ v, extract_text_from_agent_response resp = .ok v := by
  cases resp with
  | pyDict entries =>
    cases hc : pyDictGet entries "content" with
    | some w =>
      cases w with
      | pyList xs =>
        cases xs with
        | nil =>
          obtain ⟨v, hv⟩ := extractTextDictKeys_ok entries
          refine ⟨v, ?_⟩
          rw [extract_text_from_agent_response]
          simp [hc, hv]
        | cons first restL =>
          cases first with
          | pyDict fentries =>
            by_cases h2 : pyContainsKey fentries "text" = true
            · obtain ⟨w2, hw2⟩ := pySubscript_ok fentries "text" h2
              refine ⟨w2, ?_⟩
              rw [extract_text_from_agent_response]
              simp [hc, h2, hw2]
            · obtain ⟨v, hv⟩ := extractTextDictKeys_ok entries
              refine ⟨v, ?_⟩
              rw [extract_text_from_agent_response]
              simp [hc, h2, hv]
          | pyNone | pyBool _ | pyInt _ | pyStr _ | pyList _ | pyObj _ =>
            obtain ⟨v, hv⟩ := extractTextDictKeys_ok entries
            refine ⟨v, ?_⟩
            rw [extract_text_from_agent_response]
            simp [hc, hv]
      | pyNone | pyBool _ | pyInt _ | pyStr _ | pyDict _ | pyObj _ =>
        obtain ⟨v, hv⟩ := extractTextDictKeys_ok entries
        refine ⟨v, ?_⟩
        rw [extract_text_from_agent_response]
        simp [hc, hv]
    | none =>
      obtain ⟨v, hv⟩ := extractTextDictKeys_ok entries
      refine ⟨v, ?_⟩
      rw [extract_text_from_agent_response]
      simp [hc, hv]
  | pyNone | pyBool _ | pyInt _ | pyStr _ | pyList _ | pyObj _ =>
    obtain ⟨v, hv⟩ := extractTextAttrPart_ok _
    exact ⟨v, hv⟩

/-! ## Claims on the supervisor -/

/-- A truthy optional string is present. -/
theorem optStrTruthy_isSome (o : Option String)
    (h : optStrTruthy o = true) : o.isSome = true := by
  cases o with
  | none => simp [optStrTruthy] at h
  | some s => rfl

/-- A truthy optional JSON value is present. -/
theorem optJValTruthy_isSome (o : Option JVal)
    (h : optJValTruthy o = true) : o.isSome = true := by
  cases o with
  | none => simp [optJValTruthy] at h
  | some v => rfl

/-- A truthy text field short-circuits the first step. -/
theorem supStep1_skip (st : WorkflowState)
    (iF : Unit → Except String (String × String))
    (h : optStrTruthy st.text = true) : supStep1 st iF = ([], .ok st) := by
  unfold supStep1
  rw [if_pos h]

/-- A truthy classification field short-circuits the second step. -/
theorem supStep2_skip (st : WorkflowState)
    (cF : String → Except String JVal)
    (h : optJValTruthy st.classification = true) :
    supStep2 st cF = ([], .ok st) := by
  unfold supStep2
  rw [if_pos h]

/-- A truthy processing result short-circuits the third step. -/
theorem supStep3_skip (st : WorkflowState)
    (pF : String → JVal → Except String JVal)
    (h : optJValTruthy st.processing_result = true) :
    supStep3 st pF = ([], .ok st) := by
  unfold supStep3
  rw [if_pos h]

/-- The invocation trace of the second step mentions only classification. -/
theorem supStep2_trace (st : WorkflowState) (cF : String → Except String JVal) :
    (supStep2 st cF).1.map Prod.fst = []
      ∨ (supStep2 st cF).1.map Prod.fst = [Stage.classify] := by
  unfold supStep2
  split_ifs
  · left; rfl
  · cases cF (st.text.getD "") <;> right <;> rfl

/-- The invocation trace of the third step mentions only processing. -/
theorem supStep3_trace (st : WorkflowState)
    (pF : String → JVal → Except String JVal) :
    (supStep3 st pF).1.map Prod.fst = []
      ∨ (supStep3 st pF).1.map Prod.fst = [Stage.process] := by
  unfold supStep3
  split_ifs
  · left; rfl
  · cases pF (st.text.getD "") (st.classification.getD (.obj [])) <;>
      right <;> rfl

/-- The invocation trace of the first step mentions only ingestion. -/
theorem supStep1_trace (st : WorkflowState)
    (iF : Unit → Except String (String × String)) :
    (supStep1 st iF).1.map Prod.fst = []
      ∨ (supStep1 st iF).1.map Prod.fst = [Stage.ingest] := by
  unfold supStep1
  split_ifs
  · left; rfl
  · cases hi : iF () with
    | error e => right; rfl
    | ok p => obtain ⟨t, u⟩ := p; right; rfl

/-- Claim C1, counterexample: a record whose text field is set to the empty
string has both text and classification set, yet the supervisor re-invokes
the Text Extractor, because the guard tests Python truthiness rather than
presence. -/
theorem supervisor_ingests_despite_fields_set :
    (WorkflowState.mk "b" "k.txt" none (some "")
        (some (.obj [("category", .str "OTHER")])) none).text.isSome = true
    ∧ (WorkflowState.mk "b" "k.txt" none (some "")
        (some (.obj [("category", .str "OTHER")])) none).classification.isSome
        = true
    ∧ (supervisor
        (WorkflowState.mk "b" "k.txt" none (some "")
          (some (.obj [("category", .str "OTHER")])) none)
        (fun _ => .ok ("T", "uri"))
        (fun _ => .ok (.obj [("c", .num 1)]))
        (fun _ _ => .ok (.obj [("r", .num 2)]))).1.map Prod.fst
      = [Stage.ingest, Stage.process] :=
  ⟨rfl, rfl, rfl⟩

/-- Projection form of the first-step trace lemma. -/
theorem supStep1_trace' (st : WorkflowState)
    (iF : Unit → Except String (String × String))
    (tr : List (Stage × WorkflowState)) (r : Except String WorkflowState)
    (h : supStep1 st iF = (tr, r)) :
    tr.map Prod.fst = [] ∨ tr.map Prod.fst = [Stage.ingest] := by
  have htr := supStep1_trace st iF
  rw [h] at htr
  simpa using htr

/-- Projection form of the second-step trace lemma. -/
theorem supStep2_trace' (st : WorkflowState) (cF : String → Except String JVal)
    (tr : List (Stage × WorkflowState)) (r : Except String WorkflowState)
    (h : supStep2 st cF = (tr, r)) :
    tr.map Prod.fst = [] ∨ tr.map Prod.fst = [Stage.classify] := by
  have htr := supStep2_trace st cF
  rw [h] at htr
  simpa using htr

/-- Projection form of the third-step trace lemma. -/
theorem supStep3_trace' (st : WorkflowState)
    (pF : String → JVal → Except String JVal)
    (tr : List (Stage × WorkflowState)) (r : Except String WorkflowState)
    (h : supStep3 st pF = (tr, r)) :
    tr.map Prod.fst = [] ∨ tr.map Prod.fst = [Stage.process] := by
  have htr := supStep3_trace st pF
  rw [h] at htr
  simpa using htr

/-- The first step leaves the later fields untouched on success. -/
theorem supStep1_ok_fields (st : WorkflowState)
    (iF : Unit → Except String (String × String)) (tr : List (Stage × WorkflowState))
    (s1 : WorkflowState) (h : supStep1 st iF = (tr, .ok s1)) :
    s1.classification = st.classification
      ∧ s1.processing_result = st.processing_result
      ∧ s1.text.isSome = true := by
  unfold supStep1 at h
  split_ifs at h with hg
  · cases h
    exact ⟨rfl, rfl, optStrTruthy_isSome _ hg⟩
  · revert h
    cases hi : iF () with
    | error e => intro h; cases h
    | ok p =>
      obtain ⟨t, u⟩ := p
      intro h
      cases h
      exact ⟨rfl, rfl, rfl⟩

/-- The second step leaves text and the processing result untouched and
ensures a present classification on success. -/
theorem supStep2_ok_fields (st : WorkflowState)
    (cF : String → Except String JVal) (tr : List (Stage × WorkflowState))
    (s2 : WorkflowState) (h : supStep2 st cF = (tr, .ok s2)) :
    s2.text = st.text ∧ s2.processing_result = st.processing_result
      ∧ s2.classification.isSome = true := by
  unfold supStep2 at h
  split_ifs at h with hg
  · cases h
    exact ⟨rfl, rfl, optJValTruthy_isSome _ hg⟩
  · revert h
    cases hc : cF (st.text.getD "") with
    | error e => intro h; cases h
    | ok c =>
      intro h
      cases h
      exact ⟨rfl, rfl, rfl⟩

/-- The third step leaves text and classification untouched and ensures a
present processing result on success. -/
theorem supStep3_ok_fields (st : WorkflowState)
    (pF : String → JVal → Except String JVal) (tr : List (Stage × WorkflowState))
    (s3 : WorkflowState) (h : supStep3 st pF = (tr, .ok s3)) :
    s3.text = st.text ∧ s3.classification = st.classification
      ∧ s3.processing_result.isSome = true := by
  unfold supStep3 at h
  split_ifs at h with hg
  · cases h
    exact ⟨rfl, rfl, optJValTruthy_isSome _ hg⟩
  · revert h
    cases hp : pF (st.text.getD "") (st.classification.getD (.obj [])) with
    | error e => intro h; cases h
    | ok r =>
      intro h
      cases h
      exact ⟨rfl, rfl, rfl⟩

/-- Claim C1, amended: a stage is skipped exactly when its output field is
truthy (present and non-empty): with truthy text the Text Extractor never
runs, with truthy classification the Classification Stage never runs, and
on a record with truthy text and classification but no processing result
the supervisor invokes exactly the processing stage. -/
theorem supervisor_skips_truthy_stages :
    (∀ (st : WorkflowState) iF cF pF, optStrTruthy st.text = true →
      Stage.ingest ∉ (supervisor st iF cF pF).1.map Prod.fst)
    ∧ (∀ (st : WorkflowState) iF cF pF,
      optJValTruthy st.classification = true →
      Stage.classify ∉ (supervisor st iF cF pF).1.map Prod.fst)
    ∧ (∀ (st : WorkflowState) iF cF pF, optStrTruthy st.text = true →
      optJValTruthy st.classification = true →
      optJValTruthy st.processing_result = false →
      (supervisor st iF cF pF).1.map Prod.fst = [Stage.process]) := by
  refine ⟨?_, ?_, ?_⟩
  · intro st iF cF pF h1
    unfold supervisor
    rw [supStep1_skip st iF h1]
    simp only []
    rcases hs2 : supStep2 st cF with ⟨tr2, r2⟩
    have htr2 := supStep2_trace' st cF tr2 r2 hs2
    cases r2 with
    | error e => rcases htr2 with h | h <;> simp [h]
    | ok s2 =>
      rcases hs3 : supStep3 s2 pF with ⟨tr3, r3⟩
      have htr3 := supStep3_trace' s2 pF tr3 r3 hs3
      rcases htr2 with h | h <;> rcases htr3 with h' | h' <;>
        simp [hs3, h, h']
  · intro st iF cF pF h2
    unfold supervisor
    rcases hs1 : supStep1 st iF with ⟨tr1, r1⟩
    have htr1 := supStep1_trace' st iF tr1 r1 hs1
    cases r1 with
    | error e => rcases htr1 with h | h <;> simp [h]
    | ok s1 =>
      obtain ⟨hcls, _, _⟩ := supStep1_ok_fields st iF tr1 s1 hs1
      have h2' : optJValTruthy s1.classification = true := by
        rw [hcls]; exact h2
      simp only []
      rw [supStep2_skip s1 cF h2']
      simp only []
      rcases hs3 : supStep3 s1 pF with ⟨tr3, r3⟩
      have htr3 := supStep3_trace' s1 pF tr3 r3 hs3
      rcases htr1 with h | h <;> rcases htr3 with h' | h' <;>
        simp [hs3, h, h']
  · intro st iF cF pF h1 h2 h3
    unfold supervisor
    rw [supStep1_skip st iF h1]
    simp only []
    rw [supStep2_skip st cF h2]
    simp only []
    unfold supStep3
    rw [if_neg (by rw [h3]; exact Bool.false_ne_true)]
    cases pF (st.text.getD "") (st.classification.getD (.obj [])) <;> rfl

theorem supervisor_skips_truthy_stages_witness :
    (Stage.ingest ∉ (supervisor
      ⟨"b", "k", none, some "doc text", some (JVal.str "invoice"), none⟩
      (fun _ => .error "e") (fun _ => .error "e")
      (fun _ _ => .ok (JVal.str "done"))).1.map Prod.fst)
    ∧ (Stage.classify ∉ (supervisor
      ⟨"b", "k", none, some "doc text", some (JVal.str "invoice"), none⟩
      (fun _ => .error "e") (fun _ => .error "e")
      (fun _ _ => .ok (JVal.str "done"))).1.map Prod.fst)
    ∧ (supervisor
      ⟨"b", "k", none, some "doc text", some (JVal.str "invoice"), none⟩
      (fun _ => .error "e") (fun _ => .error "e")
      (fun _ _ => .ok (JVal.str "done"))).1.map Prod.fst = [Stage.process] :=
  ⟨supervisor_skips_truthy_stages.1
      ⟨"b", "k", none, some "doc text", some (JVal.str "invoice"), none⟩
      (fun _ => .error "e") (fun _ => .error "e")
      (fun _ _ => .ok (JVal.str "done")) (by decide),
   supervisor_skips_truthy_stages.2.1
      ⟨"b", "k", none, some "doc text", some (JVal.str "invoice"), none⟩
      (fun _ => .error "e") (fun _ => .error "e")
      (fun _ _ => .ok (JVal.str "done")) (by decide),
   supervisor_skips_truthy_stages.2.2
      ⟨"b", "k", none, some "doc text", some (JVal.str "invoice"), none⟩
      (fun _ => .error "e") (fun _ => .error "e")
      (fun _ _ => .ok (JVal.str "done")) (by decide) (by decide) (by decide)⟩

/-- Every trace entry of the first step is the ingest stage applied to the
input record. -/
theorem supStep1_mem (st : WorkflowState)
    (iF : Unit → Except String (String × String))
    (tr : List (Stage × WorkflowState)) (r : Except String WorkflowState)
    (h : supStep1 st iF = (tr, r)) :
    ∀ p ∈ tr, p = (Stage.ingest, st) := by
  unfold supStep1 at h
  split_ifs at h
  · cases h
    intro p hp
    cases hp
  · revert h
    cases iF () with
    | error e =>
      intro h
      cases h
      intro p hp
      simpa using hp
    | ok q =>
      obtain ⟨t, u⟩ := q
      intro h
      cases h
      intro p hp
      simpa using hp

/-- Every trace entry of the second step is the classify stage applied to
the input record. -/
theorem supStep2_mem (st : WorkflowState)
    (cF : String → Except String JVal)
    (tr : List (Stage × WorkflowState)) (r : Except String WorkflowState)
    (h : supStep2 st cF = (tr, r)) :
    ∀ p ∈ tr, p = (Stage.classify, st) := by
  unfold supStep2 at h
  split_ifs at h
  · cases h
    intro p hp
    cases hp
  · revert h
    cases cF (st.text.getD "") with
    | error e =>
      intro h
      cases h
      intro p hp
      simpa using hp
    | ok c =>
      intro h
      cases h
      intro p hp
      simpa using hp

/-- Every trace entry of the third step is the process stage applied to
the input record. -/
theorem supStep3_mem (st : WorkflowState)
    (pF : String → JVal → Except String JVal)
    (tr : List (Stage × WorkflowState)) (r : Except String WorkflowState)
    (h : supStep3 st pF = (tr, r)) :
    ∀ p ∈ tr, p = (Stage.process, st) := by
  unfold supStep3 at h
  split_ifs at h
  · cases h
    intro p hp
    cases hp
  · revert h
    cases pF (st.text.getD "") (st.classification.getD (.obj [])) with
    | error e =>
      intro h
      cases h
      intro p hp
      simpa using hp
    | ok c =>
      intro h
      cases h
      intro p hp
      simpa using hp

/-- Claim C2: pipeline ordering invariant.  The supervisor invokes stages
in the strict order ingest, classify, process with each stage at most once
(the invocation-stage trace is a sublist of that order); the classify stage
is only ever invoked on a record whose text field is already present; the
process stage only on a record whose text and classification fields are
both present; and a successfully returned record carries all three fields.
Hence a later stage never runs before an earlier one has produced its
output, and fields are populated in the order text, classification,
extraction. -/
theorem supervisor_pipeline_order (st : WorkflowState)
    (iF : Unit → Except String (String × String))
    (cF : String → Except String JVal)
    (pF : String → JVal → Except String JVal) :
    ((supervisor st iF cF pF).1.map Prod.fst).Sublist
        [Stage.ingest, Stage.classify, Stage.process]
    ∧ (∀ s, (Stage.classify, s) ∈ (supervisor st iF cF pF).1 →
        s.text.isSome = true)
    ∧ (∀ s, (Stage.process, s) ∈ (supervisor st iF cF pF).1 →
        s.text.isSome = true ∧ s.classification.isSome = true)
    ∧ (∀ sf, (supervisor st iF cF pF).2 = .ok sf →
        sf.text.isSome = true ∧ sf.classification.isSome = true
          ∧ sf.processing_result.isSome = true) := by
  unfold supervisor
  rcases hs1 : supStep1 st iF with ⟨tr1, r1⟩
  cases r1 with
  | error e =>
    simp only []
    refine ⟨?_, ?_, ?_, ?_⟩
    · rcases supStep1_trace' st iF tr1 (.error e) hs1 with h | h <;>
        rw [h] <;> decide
    · intro s hsm
      have hp := supStep1_mem st iF tr1 (.error e) hs1 _ hsm
      simp at hp
    · intro s hsm
      have hp := supStep1_mem st iF tr1 (.error e) hs1 _ hsm
      simp at hp
    · intro sf hsf
      simp at hsf
  | ok s1 =>
    obtain ⟨hcls1, hpr1, htx1⟩ := supStep1_ok_fields st iF tr1 s1 hs1
    simp only []
    rcases hs2 : supStep2 s1 cF with ⟨tr2, r2⟩
    cases r2 with
    | error e =>
      simp only []
      refine ⟨?_, ?_, ?_, ?_⟩
      · rcases supStep1_trace' st iF tr1 (.ok s1) hs1 with h | h <;>
          rcases supStep2_trace' s1 cF tr2 (.error e) hs2 with h' | h' <;>
          rw [List.map_append, h, h'] <;> decide
      · intro s hsm
        rw [List.mem_append] at hsm
        rcases hsm with hm | hm
        · have hp := supStep1_mem st iF tr1 (.ok s1) hs1 _ hm
          simp at hp
        · have hp := supStep2_mem s1 cF tr2 (.error e) hs2 _ hm
          simp only [Prod.mk.injEq] at hp
          obtain ⟨-, rfl⟩ := hp
          exact htx1
      · intro s hsm
        rw [List.mem_append] at hsm
        rcases hsm with hm | hm
        · have hp := supStep1_mem st iF tr1 (.ok s1) hs1 _ hm
          simp at hp
        · have hp := supStep2_mem s1 cF tr2 (.error e) hs2 _ hm
          simp at hp
      · intro sf hsf
        simp at hsf
    | ok s2 =>
      obtain ⟨htx2, hpr2, hcls2⟩ := supStep2_ok_fields s1 cF tr2 s2 hs2
      rcases hs3 : supStep3 s2 pF with ⟨tr3, r3⟩
      simp only []
      rw [hs3]
      simp only []
      refine ⟨?_, ?_, ?_, ?_⟩
      · rcases supStep1_trace' st iF tr1 (.ok s1) hs1 with h | h <;>
          rcases supStep2_trace' s1 cF tr2 (.ok s2) hs2 with h' | h' <;>
          rcases supStep3_trace' s2 pF tr3 r3 hs3 with h'' | h'' <;>
          rw [List.map_append, List.map_append, h, h', h''] <;> decide
      · intro s hsm
        rw [List.mem_append, List.mem_append] at hsm
        rcases hsm with (hm | hm) | hm
        · have hp := supStep1_mem st iF tr1 (.ok s1) hs1 _ hm
          simp at hp
        · have hp := supStep2_mem s1 cF tr2 (.ok s2) hs2 _ hm
          simp only [Prod.mk.injEq] at hp
          obtain ⟨-, rfl⟩ := hp
          exact htx1
        · have hp := supStep3_mem s2 pF tr3 r3 hs3 _ hm
          simp at hp
      · intro s hsm
        rw [List.mem_append, List.mem_append] at hsm
        rcases hsm with (hm | hm) | hm
        · have hp := supStep1_mem st iF tr1 (.ok s1) hs1 _ hm
          simp at hp
        · have hp := supStep2_mem s1 cF tr2 (.ok s2) hs2 _ hm
          simp at hp
        · have hp := supStep3_mem s2 pF tr3 r3 hs3 _ hm
          simp only [Prod.mk.injEq] at hp
          obtain ⟨-, rfl⟩ := hp
          constructor
          · rw [htx2]
            exact htx1
          · exact hcls2
      · intro sf hsf
        rw [hsf] at hs3
        obtain ⟨htx3, hcls3, hpr3⟩ := supStep3_ok_fields s2 pF tr3 sf hs3
        refine ⟨?_, ?_, hpr3⟩
        · rw [htx3, htx2]
          exact htx1
        · rw [hcls3]
          exact hcls2

theorem supervisor_pipeline_order_witness :
    ((supervisor ⟨"b", "k.txt", none, none, none, none⟩
        (fun _ => .ok ("T", "s3://b/k.txt"))
        (fun _ => .ok (.obj [("category", .str "INVOICE")]))
        (fun _ _ => .ok (.obj [("total", .num 5)]))).1.map Prod.fst).Sublist
      [Stage.ingest, Stage.classify, Stage.process]
    ∧ (WorkflowState.mk "b" "k.txt" (some "s3://b/k.txt") (some "T")
        none none).text.isSome = true
    ∧ ((WorkflowState.mk "b" "k.txt" (some "s3://b/k.txt") (some "T")
        (some (.obj [("category", .str "INVOICE")])) none).text.isSome = true
      ∧ (WorkflowState.mk "b" "k.txt" (some "s3://b/k.txt") (some "T")
        (some (.obj [("category", .str "INVOICE")]))
        none).classification.isSome = true)
    ∧ ((WorkflowState.mk "b" "k.txt" (some "s3://b/k.txt") (some "T")
        (some (.obj [("category", .str "INVOICE")]))
        (some (.obj [("total", .num 5)]))).text.isSome = true
      ∧ (WorkflowState.mk "b" "k.txt" (some "s3://b/k.txt") (some "T")
        (some (.obj [("category", .str "INVOICE")]))
        (some (.obj [("total", .num 5)]))).classification.isSome = true
      ∧ (WorkflowState.mk "b" "k.txt" (some "s3://b/k.txt") (some "T")
        (some (.obj [("category", .str "INVOICE")]))
        (some (.obj [("total", .num 5)]))).processing_result.isSome = true) :=
  ⟨(supervisor_pipeline_order ⟨"b", "k.txt", none, none, none, none⟩
      (fun _ => .ok ("T", "s3://b/k.txt"))
      (fun _ => .ok (.obj [("category", .str "INVOICE")]))
      (fun _ _ => .ok (.obj [("total", .num 5)]))).1,
   (supervisor_pipeline_order ⟨"b", "k.txt", none, none, none, none⟩
      (fun _ => .ok ("T", "s3://b/k.txt"))
      (fun _ => .ok (.obj [("category", .str "INVOICE")]))
      (fun _ _ => .ok (.obj [("total", .num 5)]))).2.1
     (WorkflowState.mk "b" "k.txt" (some "s3://b/k.txt") (some "T") none none)
     (List.Mem.tail _ (List.Mem.head _)),
   (supervisor_pipeline_order ⟨"b", "k.txt", none, none, none, none⟩
      (fun _ => .ok ("T", "s3://b/k.txt"))
      (fun _ => .ok (.obj [("category", .str "INVOICE")]))
      (fun _ _ => .ok (.obj [("total", .num 5)]))).2.2.1
     (WorkflowState.mk "b" "k.txt" (some "s3://b/k.txt") (some "T")
        (some (.obj [("category", .str "INVOICE")])) none)
     (List.Mem.tail _ (List.Mem.tail _ (List.Mem.head _))),
   (supervisor_pipeline_order ⟨"b", "k.txt", none, none, none, none⟩
      (fun _ => .ok ("T", "s3://b/k.txt"))
      (fun _ => .ok (.obj [("category", .str "INVOICE")]))
      (fun _ _ => .ok (.obj [("total", .num 5)]))).2.2.2
     (WorkflowState.mk "b" "k.txt" (some "s3://b/k.txt") (some "T")
        (some (.obj [("category", .str "INVOICE")]))
        (some (.obj [("total", .num 5)]))) rfl⟩

/-- Claim C7: when the asynchronous OCR job reaches a terminal status other
than SUCCEEDED on the first poll, run_textract_sync fails with an error
message naming the job id and the terminal status after exactly one poll
and no sleep; that failure propagates through ensure_text_ingested, and a
supervisor run whose ingestion step returns it aborts with that error after
invoking only the ingest stage, so the classification stage is never
invoked in that run. -/
theorem textract_failure_aborts_without_classification
    (tc : TextractClient) (key : String) (f : Nat)
    (hkey : strEndsWith (strLower key) ".pdf" = true)
    (hterm : terminalStatus (tc.poll 0).jobStatus = true)
    (hns : ¬ (tc.poll 0).jobStatus = "SUCCEEDED")
    (st : WorkflowState) (htext : optStrTruthy st.text = false)
    (cF : String → Except String JVal)
    (pF : String → JVal → Except String JVal)
    (hdr : Option String) (body : List Nat) :
    run_textract_sync (f + 1) tc key
        = some (.error ("Textract job " ++ tc.jobId
            ++ " did not succeed, status: " ++ (tc.poll 0).jobStatus), 1, [])
    ∧ ensure_text_ingested (f + 1) tc hdr body st.bucket key
        = some (.error ("Textract job " ++ tc.jobId
            ++ " did not succeed, status: " ++ (tc.poll 0).jobStatus))
    ∧ supervisor st
        (fun _ => .error ("Textract job " ++ tc.jobId
            ++ " did not succeed, status: " ++ (tc.poll 0).jobStatus)) cF pF
        = ([(Stage.ingest, st)],
           .error ("Textract job " ++ tc.jobId
            ++ " did not succeed, status: " ++ (tc.poll 0).jobStatus))
    ∧ Stage.classify ∉ (supervisor st
        (fun _ => .error ("Textract job " ++ tc.jobId
            ++ " did not succeed, status: " ++ (tc.poll 0).jobStatus))
        cF pF).1.map Prod.fst := by
  have hrun : run_textract_sync (f + 1) tc key
      = some (.error ("Textract job " ++ tc.jobId
          ++ " did not succeed, status: " ++ (tc.poll 0).jobStatus), 1, []) := by
    simp [run_textract_sync, pollUntilTerminal, hkey, hterm, hns]
  have hsu : should_use_textract key = true := by
    simp [should_use_textract, hkey]
  have hens : ensure_text_ingested (f + 1) tc hdr body st.bucket key
      = some (.error ("Textract job " ++ tc.jobId
          ++ " did not succeed, status: " ++ (tc.poll 0).jobStatus)) := by
    simp [ensure_text_ingested, hsu, hrun, Except.map]
  have hsup : supervisor st
      (fun _ => .error ("Textract job " ++ tc.jobId
          ++ " did not succeed, status: " ++ (tc.poll 0).jobStatus)) cF pF
      = ([(Stage.ingest, st)],
         .error ("Textract job " ++ tc.jobId
          ++ " did not succeed, status: " ++ (tc.poll 0).jobStatus)) := by
    simp [supervisor, supStep1, htext]
  refine ⟨hrun, hens, hsup, ?_⟩
  rw [hsup]
  simp

theorem textract_failure_aborts_without_classification_witness :
    run_textract_sync 1
        ⟨"job-1", fun _ => ⟨"FAILED", [], none⟩,
          fun _ => ⟨"SUCCEEDED", [], none⟩, ⟨"SUCCEEDED", [], none⟩⟩ "doc.pdf"
        = some (.error ("Textract job " ++ "job-1"
            ++ " did not succeed, status: " ++ "FAILED"), 1, [])
    ∧ ensure_text_ingested 1
        ⟨"job-1", fun _ => ⟨"FAILED", [], none⟩,
          fun _ => ⟨"SUCCEEDED", [], none⟩, ⟨"SUCCEEDED", [], none⟩⟩
        none [] "b" "doc.pdf"
        = some (.error ("Textract job " ++ "job-1"
            ++ " did not succeed, status: " ++ "FAILED"))
    ∧ supervisor ⟨"b", "doc.pdf", none, none, none, none⟩
        (fun _ => .error ("Textract job " ++ "job-1"
            ++ " did not succeed, status: " ++ "FAILED"))
        (fun _ => .ok (.obj [("c", .num 1)])) (fun _ _ => .ok (.obj []))
        = ([(Stage.ingest, ⟨"b", "doc.pdf", none, none, none, none⟩)],
           .error ("Textract job " ++ "job-1"
            ++ " did not succeed, status: " ++ "FAILED"))
    ∧ Stage.classify ∉ (supervisor ⟨"b", "doc.pdf", none, none, none, none⟩
        (fun _ => .error ("Textract job " ++ "job-1"
            ++ " did not succeed, status: " ++ "FAILED"))
        (fun _ => .ok (.obj [("c", .num 1)]))
        (fun _ _ => .ok (.obj []))).1.map Prod.fst :=
  textract_failure_aborts_without_classification
    ⟨"job-1", fun _ => ⟨"FAILED", [], none⟩,
      fun _ => ⟨"SUCCEEDED", [], none⟩, ⟨"SUCCEEDED", [], none⟩⟩
    "doc.pdf" 0 (by decide) (by decide) (by decide)
    ⟨"b", "doc.pdf", none, none, none, none⟩ (by decide)
    (fun _ => .ok (.obj [("c", .num 1)])) (fun _ _ => .ok (.obj []))
    none []

/-- Claim C8: with a stubbed status sequence RUNNING, RUNNING, SUCCEEDED,
run_textract_sync polls the job status exactly 3 times, sleeps the fixed
one-second interval exactly twice (once after each non-terminal poll), and
returns the LINE texts of the final SUCCEEDED response only — in emitted
order, joined by newlines, following the continuation token of the final
response until absent; the blocks of the non-terminal responses do not
appear in the result. -/
theorem textract_polls_three_times_returns_final_lines
    (tc : TextractClient) (key : String) (f : Nat) (tok : String)
    (hkey : strEndsWith (strLower key) ".pdf" = true)
    (h0 : (tc.poll 0).jobStatus = "RUNNING")
    (h1 : (tc.poll 1).jobStatus = "RUNNING")
    (h2 : (tc.poll 2).jobStatus = "SUCCEEDED")
    (htok : (tc.poll 2).nextToken = some tok) (htokne : ¬ tok = "")
    (hlast : (tc.page tok).nextToken = none) :
    run_textract_sync (f + 3) tc key
      = some (.ok (pyStrip (String.intercalate "\n"
          (lineTexts (tc.poll 2) ++ lineTexts (tc.page tok)))), 3, [1, 1]) := by
  have hterm0 : terminalStatus (tc.poll 0).jobStatus = false := by
    rw [h0]; rfl
  have hterm1 : terminalStatus (tc.poll 1).jobStatus = false := by
    rw [h1]; rfl
  have hterm2 : terminalStatus (tc.poll 2).jobStatus = true := by
    rw [h2]; rfl
  have hpoll : pollUntilTerminal (f + 3) tc.poll 0 = some (tc.poll 2, 3, [1, 1]) := by
    show pollUntilTerminal (f + 2 + 1) tc.poll 0 = some (tc.poll 2, 3, [1, 1])
    rw [pollUntilTerminal]
    simp only [hterm0, if_false]
    show pollUntilTerminal (f + 1 + 1) tc.poll 1 = some (tc.poll 2, 3, [1, 1])
    rw [pollUntilTerminal]
    simp only [hterm1, if_false]
    show pollUntilTerminal (f + 0 + 1) tc.poll 2 = some (tc.poll 2, 3, [1, 1])
    rw [pollUntilTerminal]
    simp only [hterm2, if_true]
    rfl
  have hpage : collectPages (f + 3) tc.page (tc.poll 2)
      = some (lineTexts (tc.poll 2) ++ lineTexts (tc.page tok)) := by
    show collectPages (f + 2 + 1) tc.page (tc.poll 2)
      = some (lineTexts (tc.poll 2) ++ lineTexts (tc.page tok))
    rw [collectPages]
    simp only [htok]
    rw [if_neg htokne]
    show (collectPages (f + 1 + 1) tc.page (tc.page tok)).map
        (fun more => lineTexts (tc.poll 2) ++ more)
      = some (lineTexts (tc.poll 2) ++ lineTexts (tc.page tok))
    rw [collectPages]
    simp only [hlast]
    rfl
  simp [run_textract_sync, hkey, hpoll, h2, hpage]

theorem textract_polls_three_times_returns_final_lines_witness :
    run_textract_sync 3
      ⟨"job-2",
        fun i =>
          if i = 0 then ⟨"RUNNING", [⟨some "LINE", some "decoy0"⟩], none⟩
          else if i = 1 then ⟨"RUNNING", [⟨some "LINE", some "decoy1"⟩], none⟩
          else ⟨"SUCCEEDED",
            [⟨some "LINE", some "alpha"⟩, ⟨some "WORD", some "skip"⟩,
             ⟨some "LINE", some "beta"⟩], some "tok1"⟩,
        fun _ => ⟨"SUCCEEDED", [⟨some "LINE", some "gamma"⟩], none⟩,
        ⟨"SUCCEEDED", [], none⟩⟩
      "scan.pdf"
      = some (.ok "alpha\nbeta\ngamma", 3, [1, 1]) :=
  textract_polls_three_times_returns_final_lines
    ⟨"job-2",
      fun i =>
        if i = 0 then ⟨"RUNNING", [⟨some "LINE", some "decoy0"⟩], none⟩
        else if i = 1 then ⟨"RUNNING", [⟨some "LINE", some "decoy1"⟩], none⟩
        else ⟨"SUCCEEDED",
          [⟨some "LINE", some "alpha"⟩, ⟨some "WORD", some "skip"⟩,
           ⟨some "LINE", some "beta"⟩], some "tok1"⟩,
      fun _ => ⟨"SUCCEEDED", [⟨some "LINE", some "gamma"⟩], none⟩,
      ⟨"SUCCEEDED", [], none⟩⟩
    "scan.pdf" 0 "tok1" (by decide) (by decide) (by decide) (by decide)
    (by decide) (by decide) (by decide)

/-- Claim C10: a failure of the HTML report write never fails the
invocation and never alters the returned value: invoke returns exactly the
same thing when the report write raises as when it succeeds, and on a
successful pipeline run with truthy bucket and key it returns the complete
result record (bucket, key, text_s3_uri, classification,
processing_result) built from the final workflow state even though the
write raised. -/
theorem invoke_report_write_failure_harmless
    (bucket key : Option String)
    (iF : Unit → Except String (String × String))
    (cF : String → Except String JVal)
    (pF : String → JVal → Except String JVal) (e : String) :
    invoke bucket key iF cF pF (.error e) = invoke bucket key iF cF pF (.ok ())
    ∧ (∀ tr sf, optStrTruthy bucket = true → optStrTruthy key = true →
        supervisor ⟨bucket.getD "", key.getD "", none, none, none, none⟩
            iF cF pF = (tr, .ok sf) →
        invoke bucket key iF cF pF (.error e)
          = .ok ⟨sf.bucket, sf.key, sf.text_s3_uri, sf.classification,
              sf.processing_result⟩) := by
  constructor
  · cases hv : (!optStrTruthy bucket || !optStrTruthy key) with
    | true => simp [invoke, hv]
    | false => simp only [invoke, hv, Bool.false_eq_true, if_false]
  · intro tr sf hb hk hs
    simp [invoke, hb, hk, hs]

theorem invoke_report_write_failure_harmless_witness :
    invoke (some "b") (some "k.txt")
        (fun _ => .ok ("T", "s3://b/t.txt"))
        (fun _ => .ok (.obj [("c", .num 1)]))
        (fun _ _ => .ok (.obj [("r", .num 2)])) (.error "boom")
      = invoke (some "b") (some "k.txt")
        (fun _ => .ok ("T", "s3://b/t.txt"))
        (fun _ => .ok (.obj [("c", .num 1)]))
        (fun _ _ => .ok (.obj [("r", .num 2)])) (.ok ())
    ∧ invoke (some "b") (some "k.txt")
        (fun _ => .ok ("T", "s3://b/t.txt"))
        (fun _ => .ok (.obj [("c", .num 1)]))
        (fun _ _ => .ok (.obj [("r", .num 2)])) (.error "boom")
      = .ok ⟨"b", "k.txt", some "s3://b/t.txt",
          some (.obj [("c", .num 1)]), some (.obj [("r", .num 2)])⟩ :=
  ⟨(invoke_report_write_failure_harmless (some "b") (some "k.txt")
      (fun _ => .ok ("T", "s3://b/t.txt"))
      (fun _ => .ok (.obj [("c", .num 1)]))
      (fun _ _ => .ok (.obj [("r", .num 2)])) "boom").1,
   (invoke_report_write_failure_harmless (some "b") (some "k.txt")
      (fun _ => .ok ("T", "s3://b/t.txt"))
      (fun _ => .ok (.obj [("c", .num 1)]))
      (fun _ _ => .ok (.obj [("r", .num 2)])) "boom").2
     [(Stage.ingest, ⟨"b", "k.txt", none, none, none, none⟩),
      (Stage.classify, ⟨"b", "k.txt", some "s3://b/t.txt", some "T",
        none, none⟩),
      (Stage.process, ⟨"b", "k.txt", some "s3://b/t.txt", some "T",
        some (.obj [("c", .num 1)]), none⟩)]
     ⟨"b", "k.txt", some "s3://b/t.txt", some "T",
        some (.obj [("c", .num 1)]), some (.obj [("r", .num 2)])⟩
     rfl rfl rfl⟩
